import Mathlib

/-!
# Verification of the docs-orchestration core (hashing, cache, discovery, runner)

This development is a shallow embedding of the change-detection and
selective-orchestration engine of the documentation CLI:

* `src/helpers.ts` — path filters (`shouldSkipForApi`, `matchesFilter`,
  `toBaseName`), the hashing engine (`computeGuidesHash`, `computeApiHash`,
  `walkDir`, `hashFile`), and the cache store (`loadCache`, `saveCache`);
* `src/runner.ts` — the orchestrator `runSync`;
* `src/guides.ts` / `src/typedoc.ts` / `src/llms.ts` — the output adapters
  (the external generators themselves are modelled as opaque effect
  parameters of an `Env`, constrained only by frame hypotheses).

Modelling conventions:

* Strings (paths, file bodies) are byte lists (`List Nat`); `str` injects a
  Lean string literal.  The path separator is `/` (byte 47), matching the
  POSIX deployment the tests run under.
* A SHA-256 digest is modelled by its *pre-image transcript*: the list of
  byte strings fed to the hash via `update` calls, in order.  Equal
  transcripts give equal SHA-256 digests; the distinct transcripts exhibited
  by the theorems below differ as concatenated byte streams as well, hence
  give distinct digests for any collision-free hash.
* File contents are either raw bytes or a serialized cache document
  (`Content.cacheDoc`).  The latter stands for the `JSON.stringify` image of
  a cache value; since `JSON.parse ∘ JSON.stringify` is the identity on such
  documents, the document is modelled by its value.
* JavaScript `JSON.parse` results (for the defensive-loading claims) are
  modelled by `JsValue`, with JS truthiness made explicit.
-/

namespace Docs

/-- Inject a Lean string literal as a byte list (UTF-16 code units; all
literals used here are ASCII). -/
def str (s : String) : List Nat := s.data.map Char.toNat

/-- The path separator byte, `/` (`path.sep` on the POSIX deployment). -/
def sep : Nat := 47

/-- ASCII lowercasing of one code unit, the effect of JS
`String.prototype.toLowerCase` on the ASCII range. -/
def byteToLower (b : Nat) : Nat := if 65 ≤ b ∧ b ≤ 90 then b + 32 else b

/-- `path.join a b` for an absolute directory `a` and a relative segment
`b` (no normalization is needed for the joins the code performs). -/
def pathJoin (a b : List Nat) : List Nat := a ++ sep :: b

/-- `path.basename`: the part after the last separator (paths here carry no
trailing separator). -/
def basename (p : List Nat) : List Nat := (p.reverse.takeWhile (· ≠ sep)).reverse

/-- `path.dirname` (equivalently `path.resolve(p, "..")` for the absolute,
normalized paths used here): the part before the last separator. -/
def dirname (p : List Nat) : List Nat :=
  (((p.reverse.dropWhile (· ≠ sep)).drop 1)).reverse

/-- JS `haystack.includes(needle)`: substring containment. -/
def jsIncludes (hay needle : List Nat) : Bool := decide (needle <:+: hay)

/-- JS `s.endsWith(suffix)`. -/
def jsEndsWith (s suffix_ : List Nat) : Bool := decide (suffix_ <:+ s)

/-- `p` lies strictly under directory `d` (i.e. `d ++ "/"` is a proper
prefix of `p`). -/
def underDir (d p : List Nat) : Bool := decide ((d ++ [sep]) <+: p)

/-- `p` is `d` itself or lies strictly under it. -/
def underEq (d p : List Nat) : Bool := decide (d = p) || underDir d p

/-- A hash digest, modelled by its pre-image transcript: the byte strings
passed to `hash.update`, in order.  See the header comment. -/
abbrev Digest := List (List Nat)

/-- A JS string holding a recorded hash: either a plain string (such as the
`''` default the runner substitutes for a missing cache entry) or the hex
rendering of a digest.  A 64-hex-character SHA-256 rendering is never the
empty string and determines the digest, so the two constructors are
disjoint for every value arising in a run. -/
inductive HashStr where
  | raw (s : List Nat)
  | dig (d : Digest)
deriving DecidableEq

/-- One persisted cache entry (`CacheEntry` in `types.ts`). -/
structure CacheEntry where
  guidesHash : HashStr
  apiHash : HashStr
  updatedAt : Option (List Nat) := none
deriving DecidableEq

/-- The persisted cache document (`CacheFile` in `types.ts`): a version tag
and an insertion-ordered map from base name to entry. -/
structure CacheFile where
  version : Int
  packages : List (List Nat × CacheEntry)
deriving DecidableEq

/-- The content of one file: raw bytes, or the `JSON.stringify` image of a
cache document (modelled by its value; see the header comment). -/
inductive Content where
  | bytes (data : List Nat)
  | cacheDoc (c : CacheFile)
deriving DecidableEq

/-- The byte stream a content contributes to a hash.  Cache documents are
never located under a hashed subtree in the runs considered here, so their
byte rendering is irrelevant and fixed to `[]`. -/
def contentBytes : Content → List Nat
  | .bytes data => data
  | .cacheDoc _ => []

/-- A filesystem snapshot: files (absolute path with content, in directory
order) and existing directories. -/
structure FS where
  files : List (List Nat × Content)
  dirs : List (List Nat)
deriving DecidableEq

/-- Well-formedness: file paths are distinct (one content per path). -/
def FS.WF (fs : FS) : Prop := (fs.files.map Prod.fst).Nodup

/-- Look up a file's content. -/
def readFile (fs : FS) (p : List Nat) : Option Content :=
  (fs.files.find? (fun f => f.1 = p)).map Prod.snd

/-- Total variant of `readFile` (only applied to paths known to exist). -/
def readFileD (fs : FS) (p : List Nat) : Content :=
  (readFile fs p).getD (.bytes [])

/-- A file exists at `p`. -/
def isFile (fs : FS) (p : List Nat) : Bool := fs.files.any (fun f => f.1 = p)

/-- A directory exists at `p` (`fs.existsSync` on a directory). -/
def isDir (fs : FS) (p : List Nat) : Bool := fs.dirs.any (fun d => d = p)

/-- `fileExists` / `fs.existsSync`: the path exists as a file or directory. -/
def fileExists (fs : FS) (p : List Nat) : Bool := isFile fs p || isDir fs p

/-- `walkDir`: the files below a directory, in listing order.  The source
walks `readdir` recursively collecting regular files; on the flat snapshot
this is the sublist of file paths strictly under the directory. -/
def walkDir (fs : FS) (absDir : List Nat) : List (List Nat) :=
  (fs.files.filter (fun f => underDir absDir f.1)).map Prod.fst

/-- `hashFile`: the two `update` calls one file contributes — the absolute
path string, then the file's bytes. -/
def hashFile (fs : FS) (absPath : List Nat) : Digest :=
  [absPath, contentBytes (readFileD fs absPath)]

/-- Lexicographic comparison of byte strings, the default JS `Array.sort`
comparator on strings. -/
def pathLe : List Nat → List Nat → Bool
  | [], _ => true
  | _ :: _, [] => false
  | a :: as, b :: bs => if a < b then true else if a = b then pathLe as bs else false

/-- Insert into a `pathLe`-sorted list. -/
def insertPath (x : List Nat) : List (List Nat) → List (List Nat)
  | [] => [x]
  | y :: ys => if pathLe x y then x :: y :: ys else y :: insertPath x ys

/-- `Array.prototype.sort()` with the default string comparator: sort the
path list lexicographically (the algorithm is irrelevant to the digest; any
`pathLe`-sort of the same multiset feeds the same file sequence, since equal
paths carry equal contents). -/
def sortPaths : List (List Nat) → List (List Nat)
  | [] => []
  | x :: xs => insertPath x (sortPaths xs)

/-- `shouldSkipForApi` (`helpers.ts:132`): lowercase the absolute path, skip
anything inside `node_modules`, `dist` or `build` directories and any
`.test.ts` / `.spec.ts` file. -/
def shouldSkipForApi (absPath : List Nat) : Bool :=
  let rel := absPath.map byteToLower
  if jsIncludes rel (sep :: str "node_modules" ++ [sep]) then true
  else if jsIncludes rel (sep :: str "dist" ++ [sep]) then true
  else if jsIncludes rel (sep :: str "build" ++ [sep]) then true
  else jsEndsWith rel (str ".test.ts") || jsEndsWith rel (str ".spec.ts")

/-- `computeGuidesHash` (`helpers.ts:151`): hash of the sorted guides files,
or of the constant marker `"no-guides"` when the subtree is absent. -/
def computeGuidesHash (fs : FS) (pkgDir : List Nat) : Digest :=
  let guidesDir := pathJoin pkgDir (str "guides")
  if !(isDir fs guidesDir) then [str "no-guides"]
  else (sortPaths (walkDir fs guidesDir)).flatMap (hashFile fs)

/-- `computeApiHash` (`helpers.ts:174`): hash of the sorted, non-excluded
source files, then of the shared TypeDoc base config (or its absence
marker). -/
def computeApiHash (fs : FS) (pkgDir typedocBasePath : List Nat) : Digest :=
  let srcDir := pathJoin pkgDir (str "src")
  (if !(isDir fs srcDir) then [str "no-src"]
   else (sortPaths ((walkDir fs srcDir).filter
      (fun f => !shouldSkipForApi f))).flatMap (hashFile fs))
  ++ (if fileExists fs typedocBasePath then hashFile fs typedocBasePath
      else [str "no-typedoc-base"])

/-- `toBaseName` (`helpers.ts:62`): last `/`-separated segment of a possibly
scoped package name. -/
def toBaseName (name : List Nat) : List Nat := (name.reverse.takeWhile (· ≠ sep)).reverse

/-- `matchesFilter` (`helpers.ts:80`): with no patterns, the default; else
some pattern equals the base name or the directory name, or is a substring
of the absolute directory path. -/
def matchesFilter (baseName dir : List Nat) (patterns : List (List Nat))
    (defaultWhenEmpty : Bool) : Bool :=
  if patterns.isEmpty then defaultWhenEmpty
  else
    let dirName := basename dir
    patterns.any (fun p => (decide (p = baseName) || decide (p = dirName)) ||
      jsIncludes dir p)

/-- A parsed JSON document, as produced by `JSON.parse`. -/
inductive JsValue where
  | null
  | bool (b : Bool)
  | num (n : Int)
  | jstr (s : List Nat)
  | arr (elems : List JsValue)
  | obj (fields : List (List Nat × JsValue))

/-- JS truthiness of a value (`NaN` does not arise for the integral values
modelled here). -/
def jsTruthy : JsValue → Bool
  | .null => false
  | .bool b => b
  | .num n => decide (n ≠ 0)
  | .jstr s => !s.isEmpty
  | .arr _ => true
  | .obj _ => true

/-- JS member access `v.k`: a field of an object, otherwise `undefined`
(`none`).  Member access on `null` throws, but the throw is absorbed by the
same `catch` that handles the falsy case, with the same outcome. -/
def getField (v : JsValue) (k : List Nat) : Option JsValue :=
  match v with
  | .obj fields => (fields.find? (fun f => f.1 = k)).map Prod.snd
  | _ => none

/-- Truthiness of a possibly-`undefined` value. -/
def jsTruthyOpt : Option JsValue → Bool
  | none => false
  | some v => jsTruthy v

/-- The empty versioned cache `{version: 1, packages: {}}` as a JSON value. -/
def emptyCacheJson : JsValue :=
  .obj [(str "version", .num 1), (str "packages", .obj [])]

/-- `loadCache` (`helpers.ts:199`) at the level of the parsed document.  The
argument is the outcome of `readFile` + `JSON.parse`: `none` when the file
is missing, unreadable or not valid JSON (the read or parse threw), `some j`
when parsing produced `j`.  The guard `!json.version || !json.packages`
throws into the same `catch`.  The function is total: no input raises. -/
def loadCache (r : Option JsValue) : JsValue :=
  match r with
  | some j =>
    if jsTruthyOpt (getField j (str "version")) &&
        jsTruthyOpt (getField j (str "packages")) then j
    else emptyCacheJson
  | none => emptyCacheJson

/-- Errors of the modelled filesystem operations. -/
inductive FsErr where
  | enoent
deriving DecidableEq

/-- Replace the content stored at path `p` (every entry at that path; under
`FS.WF` there is at most one).  Paths and directories are unchanged. -/
def setFileContent (fs : FS) (p : List Nat) (c : Content) : FS :=
  { fs with files := fs.files.map (fun f => if f.1 = p then (f.1, c) else f) }

/-- `fsp.writeFile`: truncate-or-create at `p`.  The write fails with
`ENOENT` when the containing directory does not exist; it never creates
directories. -/
def writeFile (fs : FS) (p : List Nat) (c : Content) : Except FsErr FS :=
  if isDir fs (dirname p) then
    .ok (if isFile fs p then setFileContent fs p c
         else { fs with files := fs.files ++ [(p, c)] })
  else .error .enoent

/-- `saveCache` (`helpers.ts:221`): a single direct `writeFile` of the
serialized cache — no temporary file, no directory creation. -/
def saveCache (fs : FS) (cachePath : List Nat) (cache : CacheFile) : Except FsErr FS :=
  writeFile fs cachePath (.cacheDoc cache)

/-- `fsp.mkdir(p, {recursive: true})` for a path whose parents exist (the
only use site creates `cwd/packages` under the existing `cwd`): add the
directory if absent. -/
def mkdirp (fs : FS) (p : List Nat) : FS :=
  if isDir fs p then fs else { fs with dirs := fs.dirs ++ [p] }

/-- `fsp.rm(p, {recursive: true, force: true})`: drop the file or directory
at `p` and everything below it; missing targets are not an error. -/
def rmTree (fs : FS) (p : List Nat) : FS :=
  { files := fs.files.filter (fun f => !underEq p f.1),
    dirs := fs.dirs.filter (fun d => !underEq p d) }

/-- `fsp.cp(src, dst, {recursive: true, force: true})`: copy every file and
directory below `src` to the corresponding path below `dst`, overwriting
files already present at a target path and leaving all other files alone. -/
def cpTree (fs : FS) (src dst : List Nat) : FS :=
  let reloc : List Nat → List Nat := fun p => dst ++ p.drop src.length
  let newFiles := (fs.files.filter (fun f => underDir src f.1)).map
    (fun f => (reloc f.1, f.2))
  let newPaths := newFiles.map Prod.fst
  let newDirs := ((fs.dirs.filter (fun d => underDir src d)).map reloc).filter
    (fun d => !(fs.dirs.any (fun e => e = d)))
  { files := fs.files.filter (fun f => !(newPaths.any (fun q => q = f.1))) ++ newFiles,
    dirs := fs.dirs ++ newDirs.dedup }

/-- Options of a sync run (`SyncOptions` in `runner.ts`).  The source fields
`include`/`exclude` are named `incl`/`excl` here because `include` is a Lean
keyword. -/
structure SyncOptions where
  incl : List (List Nat)
  excl : List (List Nat)
  clean : Bool
  hard : Bool
  generateLlms : Bool
  dryRun : Bool
deriving DecidableEq

/-- The minimal package-manifest metadata `getPackageMeta` extracts. -/
structure PkgMeta where
  name : Option (List Nat)
deriving DecidableEq

/-- A discovered package: directory and resolved base name. -/
structure Pkg where
  pkgDir : List Nat
  baseName : List Nat
deriving DecidableEq

/-- TypeDoc entry-point strategy (`"resolve" | "expand"` at the runner's
call site). -/
inductive EntryStrategy where
  | resolve
  | expand
deriving DecidableEq

/-- Arguments of one API-generator invocation (`GenerateApiOptions`).
`baseConfigUsed` records which bootstrap branch `generateApiDocs` took
(whether the base config file existed). -/
structure GenApiArgs where
  pkgDir : List Nat
  outDir : List Nat
  baseConfigPath : List Nat
  baseConfigUsed : Bool
  tsconfig : Option (List Nat)
  entryPoints : List (List Nat)
  entryPointStrategy : EntryStrategy
deriving DecidableEq

/-- Arguments of one summary-generator invocation (`LlmsOptions`). -/
structure LlmsArgs where
  pkgDir : List Nat
  outDir : List Nat
  hard : Bool
deriving DecidableEq

/-- One `console.log` call site of the runner or an adapter. -/
inductive LogMsg where
  | noPackages
  | dryMkdirPackages (p : List Nat)
  | unchanged (base : List Nat)
  | processing (base pkgDir : List Nat)
  | dryCleanGuides (p : List Nat)
  | dryCleanApi (p : List Nat)
  | guidesUnchanged (base : List Nat)
  | apiUnchanged (base : List Nat)
  | llmsUnchanged (base : List Nat)
  | noGuidesFound (src : List Nat)
  | dryCopyGuides (src dst : List Nat)
  | copiedGuides (dst : List Nat)
  | dryTypedoc (a : GenApiArgs)
  | generatedApi (outDir : List Nat)
  | dryLlms (a : LlmsArgs)
  | generatedLlms (outDir : List Nat)
  | dryWriteCache (p : List Nat)
deriving DecidableEq

/-- One observable action of a run: a log line, a filesystem mutation, or
an external-tool invocation. -/
inductive Act where
  | log (m : LogMsg)
  | mkdir (p : List Nat)
  | rmrf (p : List Nat)
  | cpGuides (src dst : List Nat)
  | typedocRun (a : GenApiArgs)
  | llmsRun (a : LlmsArgs)
  | writeCacheFile (p : List Nat)
deriving DecidableEq

/-- Whether an action is a pure log line (no mutation, no invocation). -/
def Act.isLog : Act → Bool
  | .log _ => true
  | _ => false

/-- Fatal outcomes of a run. -/
inductive RunErr where
  | wrongParent
  | typedocFailed
  | llmsFailed
  | cacheWriteFailed
deriving DecidableEq

/-- External collaborators of the run, passed as parameters: the JSON parser
applied to package manifests, the effects of the external API-reference and
summary generators on the filesystem, and the current timestamp. -/
structure Env where
  parseMeta : Content → Option PkgMeta
  typedocEffect : GenApiArgs → FS → Except Unit FS
  llmsEffect : LlmsArgs → FS → Except Unit FS
  nowStr : List Nat

/-- `getPackageMeta` (`helpers.ts:38`): read and parse `package.json`,
`none` when missing or unparsable. -/
def getPackageMeta (env : Env) (fs : FS) (pkgDir : List Nat) : Option PkgMeta :=
  let pkgJson := pathJoin pkgDir (str "package.json")
  if !(fileExists fs pkgJson) then none
  else env.parseMeta (readFileD fs pkgJson)

/-- `d` is a direct child directory of `parent` (one further nonempty,
separator-free component), as produced by `readdir(parent)`. -/
def isDirectChild (parent d : List Nat) : Bool :=
  underDir parent d && decide (sep ∉ d.drop (parent.length + 1)) &&
    !(d.drop (parent.length + 1)).isEmpty

/-- Package discovery (`runner.ts:74-92`): sibling directories of the tool,
except the one named `docs`, that carry a parsable manifest and pass the
include/exclude filters. -/
def discoverPkgs (env : Env) (fs : FS) (parent : List Nat)
    (incl excl : List (List Nat)) : List Pkg :=
  let candidates := ((fs.dirs.filter (fun d => isDirectChild parent d)).filter
      (fun dir => !(decide (basename dir = str "docs")))).filter
      (fun dir => fileExists fs (pathJoin dir (str "package.json")))
  candidates.filterMap (fun pkgDir =>
    match getPackageMeta env fs pkgDir with
    | none => none
    | some meta =>
      let baseName := toBaseName (meta.name.getD (basename pkgDir))
      if matchesFilter baseName pkgDir incl true &&
          !(matchesFilter baseName pkgDir excl false) then
        some ⟨pkgDir, baseName⟩
      else none)

/-- The empty versioned cache the runner substitutes for a missing or
invalid cache file. -/
def emptyCacheFile : CacheFile := ⟨1, []⟩

/-- `loadCache` at the typed level the runner consumes: a serialized cache
document is accepted when its `version` tag is truthy (its `packages` field
is an object, hence always truthy); any other content stands for a missing,
unreadable or schema-invalid file and yields the empty cache. -/
def loadCacheFile (fs : FS) (cachePath : List Nat) : CacheFile :=
  match readFile fs cachePath with
  | some (.cacheDoc c) => if c.version ≠ 0 then c else emptyCacheFile
  | _ => emptyCacheFile

/-- `cache.packages[baseName] ?? {guidesHash: '', apiHash: ''}`. -/
def cachedEntry (cache : CacheFile) (baseName : List Nat) : CacheEntry :=
  ((cache.packages.find? (fun f => f.1 = baseName)).map Prod.snd).getD
    ⟨.raw [], .raw [], none⟩

/-- JS object assignment `cache.packages[baseName] = e`: replace in place,
or append when the key is new. -/
def setPkgEntry (cache : CacheFile) (baseName : List Nat) (e : CacheEntry) : CacheFile :=
  { cache with packages :=
      if cache.packages.any (fun f => f.1 = baseName) then
        cache.packages.map (fun f => if f.1 = baseName then (f.1, e) else f)
      else cache.packages ++ [(baseName, e)] }

/-- Arguments of the guides adapter (`CopyGuidesOptions`). -/
structure CopyGuidesArgs where
  pkgDir : List Nat
  guidesRel : List Nat
  outDir : List Nat
  dryRun : Bool
deriving DecidableEq

/-- `copyGuides` (`guides.ts`): skip when the source subtree is absent,
report in dry-run mode, else create the target and copy recursively. -/
def copyGuides (a : CopyGuidesArgs) (fs : FS) : FS × List Act :=
  let src := pathJoin a.pkgDir a.guidesRel
  if !(fileExists fs src) then (fs, [.log (.noGuidesFound src)])
  else if a.dryRun then (fs, [.log (.dryCopyGuides src a.outDir)])
  else (cpTree (mkdirp fs a.outDir) src a.outDir,
    [.mkdir a.outDir, .cpGuides src a.outDir, .log (.copiedGuides a.outDir)])

/-- `generateApiDocs` (`typedoc.ts`): report in dry-run mode, else invoke
the external generator; a conversion failure aborts the run. -/
def generateApiDocs (env : Env) (a : GenApiArgs) (dryRun : Bool) (fs : FS) :
    Except RunErr (FS × List Act) :=
  if dryRun then .ok (fs, [.log (.dryTypedoc a)])
  else match env.typedocEffect a fs with
    | .error _ => .error .typedocFailed
    | .ok fs' => .ok (fs', [.typedocRun a, .log (.generatedApi a.outDir)])

/-- `generateLlmsOutputs` (`llms.ts`): report in dry-run mode, else invoke
the external summary generator (whose effect here covers the subsequent
output normalization, also confined to `outDir`). -/
def generateLlmsOutputs (env : Env) (a : LlmsArgs) (dryRun : Bool) (fs : FS) :
    Except RunErr (FS × List Act) :=
  if dryRun then .ok (fs, [.log (.dryLlms a)])
  else match env.llmsEffect a fs with
    | .error _ => .error .llmsFailed
    | .ok fs' => .ok (fs', [.llmsRun a, .log (.generatedLlms a.outDir)])

/-- The body of the runner's per-package loop (`runner.ts:106-188`). -/
def processPackage (env : Env) (opts : SyncOptions)
    (docsPackagesRoot typedocBasePath : List Nat) (pkg : Pkg)
    (fs : FS) (cache : CacheFile) : Except RunErr (FS × CacheFile × List Act) := do
  let outRoot := pathJoin docsPackagesRoot pkg.baseName
  let outGuides := pathJoin outRoot (str "guides")
  let outApi := pathJoin outRoot (str "api")
  let cached := cachedEntry cache pkg.baseName
  let gh := computeGuidesHash fs pkg.pkgDir
  let ah := computeApiHash fs pkg.pkgDir typedocBasePath
  let gChanged := decide (HashStr.dig gh ≠ cached.guidesHash)
  let aChanged := decide (HashStr.dig ah ≠ cached.apiHash)
  if !gChanged && !aChanged then
    return (fs, cache, [Act.log (.unchanged pkg.baseName)])
  let procActs := [Act.log (.processing pkg.baseName pkg.pkgDir)]
  let (fs1, cleanActs) :=
    if opts.clean then
      if opts.dryRun then
        (fs, (if gChanged then [Act.log (.dryCleanGuides outGuides)] else []) ++
          (if aChanged then [Act.log (.dryCleanApi outApi)] else []))
      else
        ((if aChanged then rmTree (if gChanged then rmTree fs outGuides else fs) outApi
          else if gChanged then rmTree fs outGuides else fs),
         (if gChanged then [Act.rmrf outGuides] else []) ++
           (if aChanged then [Act.rmrf outApi] else []))
    else (fs, [])
  let (fs2, guideActs) :=
    if gChanged then copyGuides ⟨pkg.pkgDir, str "guides", outGuides, opts.dryRun⟩ fs1
    else (fs1, [Act.log (.guidesUnchanged pkg.baseName)])
  let (fs3, apiActs) ←
    if aChanged then
      let defaults := [str "src/index.ts", str "src/main.ts", str "index.ts",
        str "lib/index.ts"]
      let found := (defaults.map (fun rel => pathJoin pkg.pkgDir rel)).filter
        (fun abs => fileExists fs2 abs)
      let ep := if !found.isEmpty then (found, EntryStrategy.resolve)
        else ([pathJoin pkg.pkgDir (str "src")], EntryStrategy.expand)
      let tsconfigFile := pathJoin pkg.pkgDir (str "tsconfig.json")
      generateApiDocs env
        ⟨pkg.pkgDir, outApi, typedocBasePath, fileExists fs2 typedocBasePath,
          (if fileExists fs2 tsconfigFile then some tsconfigFile else none),
          ep.1, ep.2⟩ opts.dryRun fs2
    else .ok (fs2, [Act.log (.apiUnchanged pkg.baseName)])
  let (fs4, llmsActs) ←
    if opts.generateLlms && (gChanged || aChanged) then
      generateLlmsOutputs env ⟨pkg.pkgDir, outRoot, opts.hard⟩ opts.dryRun fs3
    else if opts.generateLlms then
      .ok (fs3, [Act.log (.llmsUnchanged pkg.baseName)])
    else .ok (fs3, [])
  let cache' := setPkgEntry cache pkg.baseName ⟨.dig gh, .dig ah, some env.nowStr⟩
  return (fs4, cache', procActs ++ cleanActs ++ guideActs ++ apiActs ++ llmsActs)

/-- The runner's package loop, threading filesystem and in-memory cache. -/
def runLoop (env : Env) (opts : SyncOptions)
    (docsPackagesRoot typedocBasePath : List Nat) :
    List Pkg → FS → CacheFile → Except RunErr (FS × CacheFile × List Act)
  | [], fs, cache => .ok (fs, cache, [])
  | pkg :: rest, fs, cache => do
    let (fs1, c1, a1) ←
      processPackage env opts docsPackagesRoot typedocBasePath pkg fs cache
    let (fs2, c2, a2) ←
      runLoop env opts docsPackagesRoot typedocBasePath rest fs1 c1
    return (fs2, c2, a1 ++ a2)

/-- `runSync` (`runner.ts:52`): precondition check, output-root creation,
discovery, cache load, per-package loop, cache save. -/
def runSync (env : Env) (opts : SyncOptions) (cwd : List Nat) (fs : FS) :
    Except RunErr (FS × List Act) := do
  let parent := dirname cwd
  if basename parent ≠ str "orkestrel" then throw RunErr.wrongParent
  let docsPackagesRoot := pathJoin cwd (str "packages")
  let (fs0, preActs) :=
    if !(fileExists fs docsPackagesRoot) then
      if opts.dryRun then (fs, [Act.log (.dryMkdirPackages docsPackagesRoot)])
      else (mkdirp fs docsPackagesRoot, [Act.mkdir docsPackagesRoot])
    else (fs, [])
  let discovered := discoverPkgs env fs0 parent opts.incl opts.excl
  if discovered.isEmpty then
    return (fs0, preActs ++ [Act.log .noPackages])
  let cachePath := pathJoin docsPackagesRoot (str "cache.json")
  let cache := loadCacheFile fs0 cachePath
  let typedocBasePath := pathJoin cwd (str "typedoc.base.json")
  let (fs1, cache1, acts) ←
    runLoop env opts docsPackagesRoot typedocBasePath discovered fs0 cache
  if opts.dryRun then
    return (fs1, preActs ++ acts ++ [Act.log (.dryWriteCache cachePath)])
  else
    match saveCache fs1 cachePath cache1 with
    | .error _ => throw RunErr.cacheWriteFailed
    | .ok fs2 => return (fs2, preActs ++ acts ++ [Act.writeCacheFile cachePath])

/-! ## Supporting lemmas -/

theorem byteToLower_idem (b : Nat) : byteToLower (byteToLower b) = byteToLower b := by
  unfold byteToLower
  by_cases h : 65 ≤ b ∧ b ≤ 90
  · rw [if_pos h]
    have : ¬(65 ≤ b + 32 ∧ b + 32 ≤ 90) := by omega
    rw [if_neg this]
  · rw [if_neg h, if_neg h]

theorem map_byteToLower_idem (l : List Nat) :
    (l.map byteToLower).map byteToLower = l.map byteToLower := by
  induction l with
  | nil => rfl
  | cons a l ih => simp only [List.map_cons, ih, byteToLower_idem]

theorem find?_map_key_preserving {α β : Type} [DecidableEq α]
    (r : α × β → α × β) (hr : ∀ f, (r f).1 = f.1) (q : α)
    (l : List (α × β)) :
    (l.map r).find? (fun f => f.1 = q) =
      (l.find? (fun f => f.1 = q)).map r := by
  induction l with
  | nil => rfl
  | cons f t ih =>
    by_cases hf : f.1 = q
    · simp [List.find?_cons, hr, hf]
    · simp [List.find?_cons, hr, hf, ih]

theorem readFile_setFileContent_same {fs : FS} {p : List Nat} (c : Content)
    (h : isFile fs p = true) :
    readFile (setFileContent fs p c) p = some c := by
  unfold isFile at h
  rw [List.any_eq_true] at h
  obtain ⟨f, hmem, hfp⟩ := h
  have hfind : ∃ g, fs.files.find? (fun f => f.1 = p) = some g := by
    cases hg : fs.files.find? (fun f => f.1 = p) with
    | some g => exact ⟨g, rfl⟩
    | none =>
      rw [List.find?_eq_none] at hg
      exact absurd hfp (hg f hmem)
  obtain ⟨g, hg⟩ := hfind
  have hgp : g.1 = p := by simpa using List.find?_some hg
  unfold readFile setFileContent
  rw [find?_map_key_preserving _ (fun f => by by_cases hf : f.1 = p <;> simp [hf]),
    hg]
  simp [hgp]

theorem readFile_setFileContent_other {fs : FS} {p q : List Nat} (c : Content)
    (h : q ≠ p) :
    readFile (setFileContent fs p c) q = readFile fs q := by
  unfold readFile setFileContent
  rw [find?_map_key_preserving _ (fun f => by by_cases hf : f.1 = p <;> simp [hf])]
  cases hg : fs.files.find? (fun f => f.1 = q) with
  | none => rfl
  | some g =>
    have hgq : g.1 = q := by simpa using List.find?_some hg
    have : ¬g.1 = p := by rw [hgq]; exact h
    simp [this]

theorem readFile_append_one {fs : FS} {p : List Nat} (c : Content)
    (h : isFile fs p = false) :
    readFile { fs with files := fs.files ++ [(p, c)] } p = some c := by
  have hnone : fs.files.find? (fun f => f.1 = p) = none := by
    rw [List.find?_eq_none]
    intro f hmem hfp
    have : fs.files.any (fun f => f.1 = p) = true :=
      List.any_eq_true.2 ⟨f, hmem, hfp⟩
    rw [isFile] at h
    rw [h] at this
    exact Bool.false_ne_true this
  unfold readFile
  rw [List.find?_append, hnone]
  simp [List.find?_cons]

theorem readFile_append_one_other {fs : FS} {p q : List Nat} (c : Content)
    (h : q ≠ p) :
    readFile { fs with files := fs.files ++ [(p, c)] } q = readFile fs q := by
  unfold readFile
  rw [List.find?_append]
  cases hf : fs.files.find? (fun f => f.1 = q) with
  | none => simp [List.find?_cons, Ne.symm h]
  | some f => simp

/-! ## C3 — the no-guides sentinel -/

/-- C3: for a package without a guides subtree, `computeGuidesHash` returns
the fixed digest of the constant marker `"no-guides"`, independent of every
other content of the filesystem; and when the guides directory exists but
holds zero files, the digest is a different value (the hash of the empty
stream, not of the marker). -/
theorem computeGuidesHash_sentinel :
    (∀ fs pkgDir, isDir fs (pathJoin pkgDir (str "guides")) = false →
      computeGuidesHash fs pkgDir = [str "no-guides"]) ∧
    (∀ fs pkgDir, isDir fs (pathJoin pkgDir (str "guides")) = true →
      walkDir fs (pathJoin pkgDir (str "guides")) = [] →
      computeGuidesHash fs pkgDir ≠ [str "no-guides"]) := by
  constructor
  · intro fs pkgDir h
    simp [computeGuidesHash, h]
  · intro fs pkgDir h hw
    simp only [computeGuidesHash, h, hw]
    simp [sortPaths]

/-- Concrete package directories for the C3 witness: `fsNoGuides` has no
guides directory at all, `fsEmptyGuides` an existing but empty one. -/
def fsNoGuides : FS := ⟨[(str "/w/orkestrel/a/readme.md", .bytes (str "hi"))],
  [str "/w/orkestrel", str "/w/orkestrel/a"]⟩

def fsEmptyGuides : FS := ⟨[],
  [str "/w/orkestrel", str "/w/orkestrel/a", str "/w/orkestrel/a/guides"]⟩

theorem computeGuidesHash_sentinel_witness :
    computeGuidesHash fsNoGuides (str "/w/orkestrel/a") = [str "no-guides"] ∧
    computeGuidesHash fsEmptyGuides (str "/w/orkestrel/a") ≠ [str "no-guides"] :=
  ⟨computeGuidesHash_sentinel.1 fsNoGuides (str "/w/orkestrel/a") (by decide),
   computeGuidesHash_sentinel.2 fsEmptyGuides (str "/w/orkestrel/a")
     (by decide) (by decide)⟩

/-! ## C4 — defensive cache loading -/

/-- C4: `loadCache` never throws; a missing/unreadable/unparsable file
(`none`) and any parsed document whose `version` or `packages` member is
absent or falsy all yield the empty versioned cache
`{version: 1, packages: {}}`.  The function is total, so no input raises. -/
theorem loadCache_defensive :
    loadCache none = emptyCacheJson ∧
    (∀ j, jsTruthyOpt (getField j (str "version")) = false ∨
        jsTruthyOpt (getField j (str "packages")) = false →
      loadCache (some j) = emptyCacheJson) := by
  refine ⟨rfl, fun j h => ?_⟩
  unfold loadCache
  rcases h with h | h <;> simp [h]

theorem loadCache_defensive_witness :
    loadCache (some (.obj [(str "version", .num 1)])) = emptyCacheJson :=
  loadCache_defensive.2 (.obj [(str "version", .num 1)]) (Or.inr (by decide))

/-! ## C10 — no validation beyond truthiness -/

/-- C10: `loadCache` does not validate the version value or the entry
shapes: any parsed document whose `version` and `packages` members are both
truthy — the number `2` as much as `1` — is returned exactly as parsed,
neither replaced nor migrated. -/
theorem loadCache_no_validation (j : JsValue)
    (hv : jsTruthyOpt (getField j (str "version")) = true)
    (hp : jsTruthyOpt (getField j (str "packages")) = true) :
    loadCache (some j) = j := by
  unfold loadCache
  simp [hv, hp]

theorem loadCache_no_validation_witness :
    loadCache (some (.obj [(str "version", .num 2), (str "packages", .obj [])])) =
      .obj [(str "version", .num 2), (str "packages", .obj [])] :=
  loadCache_no_validation
    (.obj [(str "version", .num 2), (str "packages", .obj [])])
    (by decide) (by decide)

/-! ## C9 — case-insensitive exclusion -/

/-- C9: `shouldSkipForApi` lowercases the path before matching, so a path
is skipped exactly when its lowercased counterpart is: the exclusion rules
are insensitive to the letter casing of `.test.ts` / `.spec.ts` suffixes
and of `node_modules` / `dist` / `build` directory names. -/
theorem shouldSkipForApi_case_insensitive (p : List Nat) :
    shouldSkipForApi (p.map byteToLower) = shouldSkipForApi p := by
  unfold shouldSkipForApi
  rw [map_byteToLower_idem]

/-! ## C5 — cache saving (corrected) -/

/-- A filesystem whose root `/w` exists but whose `/w/pkgs` directory does
not: the directory that would contain the cache file is missing. -/
def fsMissingParent : FS := ⟨[], [str "/w"]⟩

/-- C5 counterexample: `saveCache` does not create missing parent
directories — writing the cache into the non-existent directory `/w/pkgs`
fails with `ENOENT` instead of succeeding, refuting the claim that saving
succeeds even when the containing directory does not yet exist. -/
theorem saveCache_counterexample :
    saveCache fsMissingParent (str "/w/pkgs/cache.json") emptyCacheFile =
      .error .enoent := rfl

/-- C5 amended: `saveCache` performs a single direct overwrite of the
target file with the serialized cache, leaving every other file and all
directories untouched, and it succeeds exactly when the containing
directory already exists; when the parent directory is missing the write
fails with `ENOENT` (no directory is created, and no atomic
temp-file-rename scheme is involved). -/
theorem saveCache_amended (fs : FS) (p : List Nat) (c : CacheFile) :
    (isDir fs (dirname p) = true →
      ∃ fs', saveCache fs p c = .ok fs' ∧
        readFile fs' p = some (.cacheDoc c) ∧
        (∀ q, q ≠ p → readFile fs' q = readFile fs q) ∧
        fs'.dirs = fs.dirs) ∧
    (isDir fs (dirname p) = false →
      saveCache fs p c = .error .enoent) := by
  constructor
  · intro h
    unfold saveCache writeFile
    rw [if_pos h]
    by_cases hf : isFile fs p = true
    · refine ⟨setFileContent fs p (.cacheDoc c), by rw [if_pos hf], ?_, ?_, rfl⟩
      · exact readFile_setFileContent_same _ hf
      · exact fun q hq => readFile_setFileContent_other _ hq
    · have hf' : isFile fs p = false := by
        cases hfe : isFile fs p
        · rfl
        · exact absurd hfe hf
      refine ⟨{ fs with files := fs.files ++ [(p, .cacheDoc c)] },
        by rw [if_neg (by rw [hf']; exact Bool.false_ne_true)], ?_, ?_, rfl⟩
      · exact readFile_append_one _ hf'
      · exact fun q hq => readFile_append_one_other _ hq
  · intro h
    unfold saveCache writeFile
    rw [if_neg (by rw [h]; exact Bool.false_ne_true)]

theorem saveCache_amended_witness :
    isDir fsNoGuides (dirname (str "/w/orkestrel/cache.json")) = true ∧
    (∃ fs', saveCache fsNoGuides (str "/w/orkestrel/cache.json") emptyCacheFile =
        .ok fs' ∧
      readFile fs' (str "/w/orkestrel/cache.json") =
        some (.cacheDoc emptyCacheFile) ∧
      (∀ q, q ≠ str "/w/orkestrel/cache.json" →
        readFile fs' q = readFile fsNoGuides q) ∧
      fs'.dirs = fsNoGuides.dirs) :=
  ⟨by decide,
   (saveCache_amended fsNoGuides (str "/w/orkestrel/cache.json")
     emptyCacheFile).1 (by decide)⟩

/-! ## C6 — discovery filtering -/

/-- The spec's notion of one pattern matching one package (§4.3): the
pattern equals the resolved base name, equals the directory's base name, or
occurs as a substring of the absolute directory path.  Stated from the
spec's words, to be compared with the source's `matchesFilter`. -/
def specPatternMatches (p baseName dir : List Nat) : Prop :=
  p = baseName ∨ p = basename dir ∨ p <:+: dir

/-- C6: a candidate passes the runner's filter — include filter with default
`true` on an empty pattern list, conjoined with the negated exclude filter
with default `false` — exactly when it matches the include patterns (or the
include list is empty) and matches no exclude pattern, with the spec's
three-way pattern matching. -/
theorem discovery_filter_spec (baseName dir : List Nat)
    (incl excl : List (List Nat)) :
    (matchesFilter baseName dir incl true &&
      !(matchesFilter baseName dir excl false)) = true ↔
    ((incl = [] ∨ ∃ p ∈ incl, specPatternMatches p baseName dir) ∧
      ∀ p ∈ excl, ¬specPatternMatches p baseName dir) := by
  have hm : ∀ (patterns : List (List Nat)) (dflt : Bool),
      matchesFilter baseName dir patterns dflt = true ↔
      (if patterns = [] then dflt = true
       else ∃ p ∈ patterns, specPatternMatches p baseName dir) := by
    intro patterns dflt
    unfold matchesFilter
    by_cases hp : patterns = []
    · simp [hp]
    · rw [if_neg (fun h => hp (List.isEmpty_iff.1 h)), if_neg hp]
      show (patterns.any fun p =>
        decide (p = baseName) || decide (p = basename dir) || jsIncludes dir p) = true ↔ _
      rw [List.any_eq_true]
      constructor
      · rintro ⟨p, hmem, hmatch⟩
        refine ⟨p, hmem, ?_⟩
        simp only [Bool.or_eq_true, decide_eq_true_eq, jsIncludes] at hmatch
        unfold specPatternMatches
        tauto
      · rintro ⟨p, hmem, hmatch⟩
        refine ⟨p, hmem, ?_⟩
        simp only [Bool.or_eq_true, decide_eq_true_eq, jsIncludes]
        unfold specPatternMatches at hmatch
        tauto
  rw [Bool.and_eq_true, Bool.not_eq_true', hm incl true]
  constructor
  · rintro ⟨hincl, hexcl⟩
    constructor
    · by_cases hi : incl = []
      · exact Or.inl hi
      · rw [if_neg hi] at hincl
        exact Or.inr hincl
    · intro p hmem hmatch
      have : matchesFilter baseName dir excl false = true := by
        rw [hm excl false]
        have hne : excl ≠ [] := by
          intro h
          rw [h] at hmem
          exact absurd hmem (List.not_mem_nil p)
        rw [if_neg hne]
        exact ⟨p, hmem, hmatch⟩
      rw [this] at hexcl
      exact absurd hexcl (by simp)
  · rintro ⟨hincl, hexcl⟩
    refine ⟨?_, ?_⟩
    · by_cases hi : incl = []
      · rw [if_pos hi]
      · rw [if_neg hi]
        rcases hincl with h | h
        · exact absurd h hi
        · exact h
    · cases he : matchesFilter baseName dir excl false with
      | false => rfl
      | true =>
        rw [hm excl false] at he
        by_cases hx : excl = []
        · rw [if_pos hx] at he
          exact absurd he Bool.false_ne_true
        · rw [if_neg hx] at he
          obtain ⟨p, hmem, hmatch⟩ := he
          exact absurd hmatch (hexcl p hmem)

/-! ## Lemmas for the hashing claims -/

theorem filter_eq_of_imp {α : Type} {l1 l2 : List α} {P Q : α → Bool}
    (h : l1.filter P = l2.filter P) (himp : ∀ x, Q x = true → P x = true) :
    l1.filter Q = l2.filter Q := by
  have key : ∀ l : List α, l.filter Q = (l.filter P).filter Q := by
    intro l
    rw [List.filter_filter]
    apply List.filter_congr
    intro x _
    by_cases hq : Q x = true
    · simp [hq, himp x hq]
    · rw [Bool.not_eq_true] at hq
      rw [hq, Bool.false_and]
  rw [key l1, key l2, h]

theorem find?_key_filter {α β : Type} [DecidableEq α] (l : List (α × β))
    {P : α × β → Bool} {p : α} (h : ∀ f : α × β, f.1 = p → P f = true) :
    (l.filter P).find? (fun f => f.1 = p) = l.find? (fun f => f.1 = p) := by
  induction l with
  | nil => rfl
  | cons f t ih =>
    by_cases hf : f.1 = p
    · rw [List.filter_cons, h f hf]
      simp [List.find?_cons, hf]
    · rw [List.filter_cons]
      by_cases hP : P f = true
      · rw [hP]
        simp [List.find?_cons, hf, ih]
      · rw [Bool.not_eq_true] at hP
        rw [hP]
        simp [List.find?_cons, hf, ih]

theorem insertPath_perm (x : List Nat) (l : List (List Nat)) :
    (insertPath x l).Perm (x :: l) := by
  induction l with
  | nil => exact List.Perm.refl _
  | cons y ys ih =>
    unfold insertPath
    by_cases h : pathLe x y = true
    · rw [if_pos h]
    · rw [if_neg h]
      exact ((ih.cons y).trans (List.Perm.swap x y ys))

theorem sortPaths_perm (l : List (List Nat)) : (sortPaths l).Perm l := by
  induction l with
  | nil => exact List.Perm.refl _
  | cons x xs ih => exact (insertPath_perm x (sortPaths xs)).trans (ih.cons x)

theorem filter_map_fst {α β : Type} (l : List (α × β)) (P q : α → Bool) :
    ((l.filter (fun f => P f.1)).map Prod.fst).filter q =
      (l.filter (fun f => P f.1 && q f.1)).map Prod.fst := by
  induction l with
  | nil => rfl
  | cons f t ih =>
    by_cases hP : P f.1 = true
    · by_cases hq : q f.1 = true
      · simp [List.filter_cons, hP, hq, ih]
      · rw [Bool.not_eq_true] at hq
        simp [List.filter_cons, hP, hq, ih]
    · rw [Bool.not_eq_true] at hP
      simp [List.filter_cons, hP, ih]

theorem filter_key_map_key_preserving {α β : Type} (l : List (α × β))
    (r : α × β → α × β) (hr : ∀ f, (r f).1 = f.1) (Q : α → Bool) :
    (l.map r).filter (fun f => Q f.1) = (l.filter (fun f => Q f.1)).map r := by
  induction l with
  | nil => rfl
  | cons f t ih =>
    by_cases hq : Q f.1 = true
    · simp [List.filter_cons, hr, hq, ih]
    · rw [Bool.not_eq_true] at hq
      simp [List.filter_cons, hr, hq, ih]

theorem setFileContent_key_preserving (p : List Nat) (c : Content) :
    ∀ f : List Nat × Content,
      ((fun f => if f.1 = p then (f.1, c) else f) f).1 = f.1 := by
  intro f
  by_cases hf : f.1 = p <;> simp [hf]

theorem walkDir_setFileContent (fs : FS) (p : List Nat) (c : Content)
    (d : List Nat) : walkDir (setFileContent fs p c) d = walkDir fs d := by
  unfold walkDir setFileContent
  rw [show (fun f : List Nat × Content => underDir d f.1) =
      (fun f : List Nat × Content => (fun q => underDir d q) f.1) from rfl]
  rw [filter_key_map_key_preserving _ _ (setFileContent_key_preserving p c)]
  rw [List.map_map]
  apply List.map_congr_left
  intro f _
  exact setFileContent_key_preserving p c f

theorem any_key_map_key_preserving {α β : Type} (l : List (α × β))
    (r : α × β → α × β) (hr : ∀ f, (r f).1 = f.1) (Q : α → Bool) :
    (l.map r).any (fun f => Q f.1) = l.any (fun f => Q f.1) := by
  induction l with
  | nil => rfl
  | cons f t ih => simp [hr, ih]

theorem isFile_setFileContent (fs : FS) (p : List Nat) (c : Content)
    (q : List Nat) : isFile (setFileContent fs p c) q = isFile fs q := by
  unfold isFile setFileContent
  have := any_key_map_key_preserving fs.files _
    (setFileContent_key_preserving p c) (fun k => decide (k = q))
  simpa using this

theorem isFile_of_readFile_some {fs : FS} {p : List Nat} {c : Content}
    (h : readFile fs p = some c) : isFile fs p = true := by
  unfold readFile at h
  cases hf : fs.files.find? (fun f => f.1 = p) with
  | none => rw [hf] at h; exact absurd h (by simp)
  | some f =>
    have hmem := List.mem_of_find?_eq_some hf
    have hkey : f.1 = p := by simpa using List.find?_some hf
    exact List.any_eq_true.2 ⟨f, hmem, by simpa using hkey⟩

theorem flatMap_congr {α β : Type} {l : List α} {f g : α → List β}
    (h : ∀ x ∈ l, f x = g x) : l.flatMap f = l.flatMap g := by
  induction l with
  | nil => rfl
  | cons x t ih =>
    rw [List.flatMap_cons, List.flatMap_cons, h x (List.mem_cons_self x t),
      ih (fun y hy => h y (List.mem_cons_of_mem x hy))]

theorem length_flatMap_hashFile (fs : FS) (l : List (List Nat)) :
    (l.flatMap (hashFile fs)).length = 2 * l.length := by
  induction l with
  | nil => rfl
  | cons x t ih =>
    rw [List.flatMap_cons, List.length_append, ih]
    simp [hashFile]
    omega

theorem walkDir_nodup {fs : FS} (hwf : fs.WF) (d : List Nat) :
    (walkDir fs d).Nodup := by
  unfold walkDir
  exact ((List.filter_sublist fs.files).map Prod.fst).nodup hwf

/-- The source files that influence `computeApiHash`: everything except the
excluded (test / `dist` / `build` / `node_modules`) files below the `src`
subtree. -/
def keptForApi (srcDir : List Nat) (f : List Nat × Content) : Bool :=
  !(underDir srcDir f.1 && shouldSkipForApi f.1)

/-! ## C1 — apiHash exclusion and sensitivity -/

theorem keptForApi_of_included {srcDir q : List Nat}
    (_hu : underDir srcDir q = true) (hs : shouldSkipForApi q = false) :
    ∀ f : List Nat × Content, f.1 = q → keptForApi srcDir f = true := by
  intro f hf
  unfold keptForApi
  rw [hf, hs, Bool.and_false]
  rfl

theorem readFile_eq_of_kept_eq {fs fs' : FS} {srcDir q : List Nat}
    (hkeep : fs'.files.filter (keptForApi srcDir) =
      fs.files.filter (keptForApi srcDir))
    (hu : underDir srcDir q = true) (hs : shouldSkipForApi q = false) :
    readFile fs' q = readFile fs q := by
  unfold readFile
  rw [← find?_key_filter fs'.files (keptForApi_of_included hu hs),
    ← find?_key_filter fs.files (keptForApi_of_included hu hs), hkeep]

/-- C1: the API digest (i) is unaffected by any change — content, addition,
removal, renaming — confined to the excluded files (test/spec files and
files under `node_modules`/`dist`/`build`) below the source subtree, as
long as the directories and the shared base-config file are untouched;
(ii) changes whenever the byte content of a non-excluded file below the
source subtree is modified; and (iii) changes whenever the byte content of
the shared API-generator base-config file is modified. -/
theorem computeApiHash_exclusion_sensitivity :
    (∀ fs fs' pkgDir base,
      fs'.dirs = fs.dirs →
      fs'.files.filter (keptForApi (pathJoin pkgDir (str "src"))) =
        fs.files.filter (keptForApi (pathJoin pkgDir (str "src"))) →
      fileExists fs' base = fileExists fs base →
      readFileD fs' base = readFileD fs base →
      computeApiHash fs' pkgDir base = computeApiHash fs pkgDir base) ∧
    (∀ fs pkgDir base p b b',
      fs.WF →
      isDir fs (pathJoin pkgDir (str "src")) = true →
      readFile fs p = some (.bytes b) →
      underDir (pathJoin pkgDir (str "src")) p = true →
      shouldSkipForApi p = false →
      p ≠ base →
      b' ≠ b →
      computeApiHash (setFileContent fs p (.bytes b')) pkgDir base ≠
        computeApiHash fs pkgDir base) ∧
    (∀ fs pkgDir base b b',
      readFile fs base = some (.bytes b) →
      b' ≠ b →
      computeApiHash (setFileContent fs base (.bytes b')) pkgDir base ≠
        computeApiHash fs pkgDir base) := by
  have hbase_set : ∀ (fs : FS) (p : List Nat) (c : Content) (base : List Nat),
      p ≠ base →
      (if fileExists (setFileContent fs p c) base = true
        then hashFile (setFileContent fs p c) base
        else [str "no-typedoc-base"]) =
      (if fileExists fs base = true then hashFile fs base
        else [str "no-typedoc-base"]) := by
    intro fs p c base hne
    have hex : fileExists (setFileContent fs p c) base = fileExists fs base := by
      unfold fileExists
      rw [isFile_setFileContent]
      rfl
    rw [hex]
    by_cases hf : fileExists fs base = true
    · rw [if_pos hf, if_pos hf]
      unfold hashFile readFileD
      rw [readFile_setFileContent_other _ (Ne.symm hne)]
    · rw [Bool.not_eq_true] at hf
      rw [hf]
      simp
  refine ⟨?_, ?_, ?_⟩
  · -- (i) exclusion invariance
    intro fs fs' pkgDir base hdirs hkeep hbex hbrd
    simp only [computeApiHash]
    have hdir : isDir fs' (pathJoin pkgDir (str "src")) =
        isDir fs (pathJoin pkgDir (str "src")) := by
      unfold isDir
      rw [hdirs]
    have hbasePart :
        (if fileExists fs' base = true then hashFile fs' base
          else [str "no-typedoc-base"]) =
        (if fileExists fs base = true then hashFile fs base
          else [str "no-typedoc-base"]) := by
      rw [hbex]
      by_cases hf : fileExists fs base = true
      · rw [if_pos hf, if_pos hf]
        unfold hashFile
        rw [hbrd]
      · rw [Bool.not_eq_true] at hf
        rw [hf]
        simp
    rw [hdir, hbasePart]
    by_cases hd : isDir fs (pathJoin pkgDir (str "src")) = true
    · rw [hd]
      simp only [Bool.not_true, Bool.false_eq_true, if_false]
      have hQ : fs'.files.filter
            (fun f => underDir (pathJoin pkgDir (str "src")) f.1 &&
              !shouldSkipForApi f.1) =
          fs.files.filter
            (fun f => underDir (pathJoin pkgDir (str "src")) f.1 &&
              !shouldSkipForApi f.1) := by
        apply filter_eq_of_imp hkeep
        intro f hf
        rw [Bool.and_eq_true] at hf
        have hs : shouldSkipForApi f.1 = false := by simpa using hf.2
        simp [keptForApi, hf.1, hs]
      have hL : (walkDir fs' (pathJoin pkgDir (str "src"))).filter
            (fun f => !shouldSkipForApi f) =
          (walkDir fs (pathJoin pkgDir (str "src"))).filter
            (fun f => !shouldSkipForApi f) := by
        unfold walkDir
        rw [filter_map_fst, filter_map_fst, hQ]
      rw [hL]
      congr 1
      apply flatMap_congr
      intro q hq
      have hqL : q ∈ (walkDir fs (pathJoin pkgDir (str "src"))).filter
          (fun f => !shouldSkipForApi f) := ((sortPaths_perm _).mem_iff).1 hq
      have hqs : shouldSkipForApi q = false := by
        simpa using List.of_mem_filter hqL
      have hqw : q ∈ walkDir fs (pathJoin pkgDir (str "src")) :=
        List.mem_of_mem_filter hqL
      have hqu : underDir (pathJoin pkgDir (str "src")) q = true := by
        unfold walkDir at hqw
        obtain ⟨f, hfmem, hffst⟩ := List.mem_map.1 hqw
        rw [← hffst]
        exact (List.mem_filter.1 hfmem).2
      unfold hashFile readFileD
      rw [readFile_eq_of_kept_eq hkeep hqu hqs]
    · rw [Bool.not_eq_true] at hd
      rw [hd]
      rfl
  · -- (ii) sensitivity to a non-excluded source file
    intro fs pkgDir base p b b' hwf hsrc hread hunder hskip hpb hbb heq
    have hisf : isFile fs p = true := isFile_of_readFile_some hread
    simp only [computeApiHash] at heq
    have hdir : isDir (setFileContent fs p (.bytes b')) (pathJoin pkgDir (str "src")) =
        isDir fs (pathJoin pkgDir (str "src")) := rfl
    rw [hdir, walkDir_setFileContent, hbase_set fs p (.bytes b') base hpb] at heq
    by_cases hd : isDir fs (pathJoin pkgDir (str "src")) = true
    · rw [hd] at heq
      simp only [Bool.not_true, Bool.false_eq_true, if_false] at heq
      have heqS := List.append_cancel_right heq
      -- decompose the sorted kept path list around p
      have hpw : p ∈ walkDir fs (pathJoin pkgDir (str "src")) := by
        unfold walkDir
        obtain ⟨f, hfmem⟩ : ∃ f, fs.files.find? (fun g => g.1 = p) = some f := by
          unfold readFile at hread
          cases hg : fs.files.find? (fun g => g.1 = p) with
          | none => rw [hg] at hread; exact absurd hread (by simp)
          | some g => exact ⟨g, rfl⟩
        have hfp : f.1 = p := by simpa using List.find?_some hfmem
        refine List.mem_map.2 ⟨f, List.mem_filter.2
          ⟨List.mem_of_find?_eq_some hfmem, by rw [hfp]; exact hunder⟩, hfp⟩
      have hpL : p ∈ sortPaths ((walkDir fs (pathJoin pkgDir (str "src"))).filter
          (fun f => !shouldSkipForApi f)) := by
        apply ((sortPaths_perm _).mem_iff).2
        exact List.mem_filter.2 ⟨hpw, by rw [hskip]; rfl⟩
      have hnd : (sortPaths ((walkDir fs (pathJoin pkgDir (str "src"))).filter
          (fun f => !shouldSkipForApi f))).Nodup :=
        (sortPaths_perm _).symm.nodup
          ((List.filter_sublist _).nodup (walkDir_nodup hwf _))
      obtain ⟨A, B₂, hsplit⟩ := List.append_of_mem hpL
      rw [hsplit] at heqS hnd
      have hpA : p ∉ A := by
        have := (List.nodup_append.1 hnd).2.2
        intro hmem
        exact this hmem (List.mem_cons_self p B₂)
      have hpB : p ∉ B₂ := by
        have := (List.nodup_append.1 hnd).2.1
        exact (List.nodup_cons.1 this).1
      rw [List.flatMap_append, List.flatMap_append, List.flatMap_cons,
        List.flatMap_cons] at heqS
      have hA : A.flatMap (hashFile (setFileContent fs p (.bytes b'))) =
          A.flatMap (hashFile fs) := by
        apply flatMap_congr
        intro q hq
        unfold hashFile readFileD
        rw [readFile_setFileContent_other _ (fun hqp => hpA (by rw [← hqp]; exact hq))]
      have hB : B₂.flatMap (hashFile (setFileContent fs p (.bytes b'))) =
          B₂.flatMap (hashFile fs) := by
        apply flatMap_congr
        intro q hq
        unfold hashFile readFileD
        rw [readFile_setFileContent_other _ (fun hqp => hpB (by rw [← hqp]; exact hq))]
      have hp' : hashFile (setFileContent fs p (.bytes b')) p = [p, b'] := by
        unfold hashFile readFileD
        rw [readFile_setFileContent_same _ hisf]
        rfl
      have hp0 : hashFile fs p = [p, b] := by
        unfold hashFile readFileD
        rw [hread]
        rfl
      rw [hA, hB, hp', hp0] at heqS
      have := List.append_cancel_left heqS
      simp at this
      exact hbb this
    · rw [Bool.not_eq_true] at hd
      rw [hd] at hsrc
      exact Bool.false_ne_true hsrc
  · -- (iii) sensitivity to the shared base config
    intro fs pkgDir base b b' hread hbb heq
    have hisf : isFile fs base = true := isFile_of_readFile_some hread
    simp only [computeApiHash] at heq
    have hdir : isDir (setFileContent fs base (.bytes b'))
        (pathJoin pkgDir (str "src")) = isDir fs (pathJoin pkgDir (str "src")) := rfl
    rw [hdir, walkDir_setFileContent] at heq
    have hex : fileExists (setFileContent fs base (.bytes b')) base = true := by
      unfold fileExists
      rw [isFile_setFileContent, hisf]
      rfl
    have hex0 : fileExists fs base = true := by
      unfold fileExists
      rw [hisf]
      rfl
    rw [hex, hex0, if_pos rfl, if_pos rfl] at heq
    have hB' : hashFile (setFileContent fs base (.bytes b')) base = [base, b'] := by
      unfold hashFile readFileD
      rw [readFile_setFileContent_same _ hisf]
      rfl
    have hB0 : hashFile fs base = [base, b] := by
      unfold hashFile readFileD
      rw [hread]
      rfl
    rw [hB', hB0] at heq
    by_cases hd : isDir fs (pathJoin pkgDir (str "src")) = true
    · rw [hd] at heq
      simp only [Bool.not_true, Bool.false_eq_true, if_false] at heq
      have htail := (List.append_inj heq
        (by rw [length_flatMap_hashFile, length_flatMap_hashFile])).2
      simp at htail
      exact hbb htail
    · rw [Bool.not_eq_true] at hd
      rw [hd] at heq
      simp only [Bool.not_false, if_true] at heq
      have := List.append_cancel_left heq
      simp at this
      exact hbb this

/-- Concrete workspace for the C1 witness: one package `a` with a real
source file, an excluded test file, and the shared base config. -/
def fsApiW : FS :=
  ⟨[(str "/w/orkestrel/a/src/index.ts", .bytes (str "x")),
    (str "/w/orkestrel/a/src/util.test.ts", .bytes (str "t")),
    (str "/w/orkestrel/docs/typedoc.base.json", .bytes (str "cfg"))],
   [str "/w", str "/w/orkestrel", str "/w/orkestrel/a",
    str "/w/orkestrel/a/src", str "/w/orkestrel/docs"]⟩

/-- `fsApiW` with the excluded test file's content changed, the test file
renamed, and a new excluded file added under `src/dist`. -/
def fsApiW2 : FS :=
  ⟨[(str "/w/orkestrel/a/src/index.ts", .bytes (str "x")),
    (str "/w/orkestrel/a/src/other.spec.ts", .bytes (str "t2")),
    (str "/w/orkestrel/a/src/dist/j.js", .bytes (str "d")),
    (str "/w/orkestrel/docs/typedoc.base.json", .bytes (str "cfg"))],
   [str "/w", str "/w/orkestrel", str "/w/orkestrel/a",
    str "/w/orkestrel/a/src", str "/w/orkestrel/docs"]⟩

theorem computeApiHash_exclusion_sensitivity_witness :
    computeApiHash fsApiW2 (str "/w/orkestrel/a")
        (str "/w/orkestrel/docs/typedoc.base.json") =
      computeApiHash fsApiW (str "/w/orkestrel/a")
        (str "/w/orkestrel/docs/typedoc.base.json") ∧
    computeApiHash
        (setFileContent fsApiW (str "/w/orkestrel/a/src/index.ts")
          (.bytes (str "y")))
        (str "/w/orkestrel/a") (str "/w/orkestrel/docs/typedoc.base.json") ≠
      computeApiHash fsApiW (str "/w/orkestrel/a")
        (str "/w/orkestrel/docs/typedoc.base.json") ∧
    computeApiHash
        (setFileContent fsApiW (str "/w/orkestrel/docs/typedoc.base.json")
          (.bytes (str "cfg2")))
        (str "/w/orkestrel/a") (str "/w/orkestrel/docs/typedoc.base.json") ≠
      computeApiHash fsApiW (str "/w/orkestrel/a")
        (str "/w/orkestrel/docs/typedoc.base.json") :=
  ⟨computeApiHash_exclusion_sensitivity.1 fsApiW fsApiW2 (str "/w/orkestrel/a")
      (str "/w/orkestrel/docs/typedoc.base.json")
      (by decide) (by decide) (by decide) (by decide),
   computeApiHash_exclusion_sensitivity.2.1 fsApiW (str "/w/orkestrel/a")
      (str "/w/orkestrel/docs/typedoc.base.json")
      (str "/w/orkestrel/a/src/index.ts") (str "x") (str "y")
      (by unfold FS.WF; decide) (by decide) (by decide) (by decide) (by decide)
      (by decide) (by decide),
   computeApiHash_exclusion_sensitivity.2.2 fsApiW (str "/w/orkestrel/a")
      (str "/w/orkestrel/docs/typedoc.base.json") (str "cfg") (str "cfg2")
      (by decide) (by decide)⟩

/-! ## Lemmas for the orchestrator claims -/

theorem copyGuides_dryRun (a : CopyGuidesArgs) (ha : a.dryRun = true) (fs : FS) :
    (copyGuides a fs).1 = fs ∧
    ∀ x ∈ (copyGuides a fs).2, Act.isLog x = true := by
  unfold copyGuides
  by_cases hex : fileExists fs (pathJoin a.pkgDir a.guidesRel) = true
  · simp [hex, ha, Act.isLog]
  · rw [Bool.not_eq_true] at hex
    simp [hex, Act.isLog]

theorem generateApiDocs_dryRun (env : Env) (a : GenApiArgs) (fs : FS) :
    generateApiDocs env a true fs = .ok (fs, [.log (.dryTypedoc a)]) := rfl

theorem generateLlmsOutputs_dryRun (env : Env) (a : LlmsArgs) (fs : FS) :
    generateLlmsOutputs env a true fs = .ok (fs, [.log (.dryLlms a)]) := rfl

/-- Every action in the list is a log line. -/
def logsOnly (l : List Act) : Prop := ∀ x ∈ l, Act.isLog x = true

theorem logsOnly_nil : logsOnly [] := by
  intro x hx
  exact absurd hx (List.not_mem_nil x)

theorem logsOnly_cons {m : LogMsg} {l : List Act} (h : logsOnly l) :
    logsOnly (Act.log m :: l) := by
  intro x hx
  rcases List.mem_cons.1 hx with hx | hx
  · rw [hx]; rfl
  · exact h x hx

theorem logsOnly_append {l1 l2 : List Act} (h1 : logsOnly l1) (h2 : logsOnly l2) :
    logsOnly (l1 ++ l2) := by
  intro x hx
  rcases List.mem_append.1 hx with hx | hx
  · exact h1 x hx
  · exact h2 x hx

theorem logsOnly_ite {c : Prop} [Decidable c] {l1 l2 : List Act}
    (h1 : logsOnly l1) (h2 : logsOnly l2) : logsOnly (if c then l1 else l2) := by
  by_cases hc : c
  · rw [if_pos hc]; exact h1
  · rw [if_neg hc]; exact h2

theorem logsOnly_copyGuides_dry (a : CopyGuidesArgs) (ha : a.dryRun = true)
    (fs : FS) : logsOnly (copyGuides a fs).2 :=
  (copyGuides_dryRun a ha fs).2

theorem processPackage_dryRun {env : Env} {opts : SyncOptions}
    {dpr tbp : List Nat} {pkg : Pkg} {fs : FS} {cache : CacheFile}
    {fs'' : FS} {c'' : CacheFile} {a : List Act}
    (hdry : opts.dryRun = true)
    (h : processPackage env opts dpr tbp pkg fs cache = .ok (fs'', c'', a)) :
    fs'' = fs ∧ logsOnly a := by
  unfold processPackage at h
  cases hgb : decide (HashStr.dig (computeGuidesHash fs pkg.pkgDir) ≠
      (cachedEntry cache pkg.baseName).guidesHash) <;>
  cases hab : decide (HashStr.dig (computeApiHash fs pkg.pkgDir tbp) ≠
      (cachedEntry cache pkg.baseName).apiHash) <;>
    simp only [hdry, hgb, hab, Bool.not_true, Bool.not_false, Bool.true_and,
      Bool.false_and, Bool.and_true, Bool.and_false, Bool.true_or, Bool.false_or,
      Bool.or_true, Bool.or_false, Bool.true_eq_false, Bool.false_eq_true,
      eq_self_iff_true, if_true, if_false, ite_true, ite_false, ite_self,
      apply_ite Prod.fst, apply_ite Prod.snd,
      generateApiDocs_dryRun, generateLlmsOutputs_dryRun,
      bind, Except.bind, pure, Except.pure, Except.ok.injEq] at h
  all_goals (
    repeat split at h
    all_goals (
      simp only [Except.ok.injEq, Prod.mk.injEq] at h
      obtain ⟨h1, _, h3⟩ := h
      refine ⟨h1.symm.trans ?_, ?_⟩
      · first
        | rfl
        | exact (copyGuides_dryRun _ rfl _).1
      · rw [← h3]
        repeat
          first
          | exact logsOnly_nil
          | apply logsOnly_cons
          | apply logsOnly_append
          | apply logsOnly_ite
          | exact logsOnly_copyGuides_dry _ rfl _))

theorem runLoop_dryRun {env : Env} {opts : SyncOptions} {dpr tbp : List Nat}
    (hdry : opts.dryRun = true) :
    ∀ (pkgs : List Pkg) (fs : FS) (cache : CacheFile) (fs' : FS)
      (c' : CacheFile) (acts : List Act),
      runLoop env opts dpr tbp pkgs fs cache = .ok (fs', c', acts) →
      fs' = fs ∧ logsOnly acts := by
  intro pkgs
  induction pkgs with
  | nil =>
    intro fs cache fs' c' acts h
    unfold runLoop at h
    rw [Except.ok.injEq, Prod.mk.injEq] at h
    obtain ⟨h1, h2⟩ := h
    rw [Prod.mk.injEq] at h2
    refine ⟨h1.symm, ?_⟩
    rw [← h2.2]
    exact logsOnly_nil
  | cons pkg rest ih =>
    intro fs cache fs' c' acts h
    unfold runLoop at h
    cases hp : processPackage env opts dpr tbp pkg fs cache with
    | error e =>
      rw [hp] at h
      simp only [bind, Except.bind] at h
      exact absurd h (by simp)
    | ok t =>
      obtain ⟨tfs, tc, ta⟩ := t
      rw [hp] at h
      simp only [bind, Except.bind] at h
      cases hl : runLoop env opts dpr tbp rest tfs tc with
      | error e =>
        rw [hl] at h
        exact absurd h (by simp)
      | ok t2 =>
        obtain ⟨t2fs, t2c, t2a⟩ := t2
        rw [hl] at h
        simp only [pure, Except.pure, Except.ok.injEq, Prod.mk.injEq] at h
        obtain ⟨h1, _, h3⟩ := h
        obtain ⟨hp1, hp2⟩ := processPackage_dryRun hdry hp
        obtain ⟨hl1, hl2⟩ := ih tfs tc t2fs t2c t2a hl
        refine ⟨h1.symm.trans (hl1.trans hp1), ?_⟩
        rw [← h3]
        exact logsOnly_append hp2 hl2

/-! ## C8 — dry-run purity -/

/-- C8: with `dryRun` set, a successful `runSync` performs zero filesystem
mutations and zero external-tool invocations: the resulting filesystem is
the input filesystem, every recorded action is a log line (so there is no
directory creation, no clean deletion, no guides copy, no API- or
summary-generator invocation and no cache write), while the run still prints
its intent — it ends either with the no-packages message or with the
intended-cache-write message. -/
theorem runSync_dryRun_pure {env : Env} {opts : SyncOptions} {cwd : List Nat}
    {fs fs' : FS} {tr : List Act}
    (hdry : opts.dryRun = true)
    (h : runSync env opts cwd fs = .ok (fs', tr)) :
    fs' = fs ∧ (∀ x ∈ tr, Act.isLog x = true) ∧
    (Act.log .noPackages ∈ tr ∨
      Act.log (.dryWriteCache (pathJoin (pathJoin cwd (str "packages"))
        (str "cache.json"))) ∈ tr) := by
  unfold runSync at h
  by_cases hpar : basename (dirname cwd) ≠ str "orkestrel"
  · rw [if_pos hpar] at h
    simp only [throw, throwThe, MonadExceptOf.throw, bind, Except.bind] at h
    exact absurd h (by simp)
  · rw [if_neg hpar] at h
    rw [hdry] at h
    rcases Bool.eq_false_or_eq_true
        (fileExists fs (pathJoin cwd (str "packages"))) with hfe | hfe <;>
      simp only [hfe, Bool.not_true, Bool.not_false, if_true, if_false,
        eq_self_iff_true, ite_true, ite_false, Bool.false_eq_true] at h <;>
      all_goals (
        by_cases hdisc : (discoverPkgs env fs (dirname cwd) opts.incl
            opts.excl).isEmpty = true
        · simp only [hdisc, ite_true, bind, Except.bind, pure, Except.pure,
            Except.ok.injEq, Prod.mk.injEq] at h
          obtain ⟨h1, h2⟩ := h
          refine ⟨h1.symm, ?_, ?_⟩
          · rw [← h2]
            show logsOnly _
            repeat
              first
              | exact logsOnly_nil
              | apply logsOnly_cons
              | apply logsOnly_append
          · rw [← h2]
            exact Or.inl (by simp)
        · simp only [hdisc, ite_false, Bool.false_eq_true, bind, Except.bind,
            pure, Except.pure] at h
          cases hl : runLoop env opts (pathJoin cwd (str "packages"))
              (pathJoin cwd (str "typedoc.base.json"))
              (discoverPkgs env fs (dirname cwd) opts.incl opts.excl) fs
              (loadCacheFile fs (pathJoin (pathJoin cwd (str "packages"))
                (str "cache.json"))) with
          | error e =>
            rw [hl] at h
            exact absurd h (by simp)
          | ok t =>
            obtain ⟨fs1, c1, acts⟩ := t
            rw [hl] at h
            simp only [eq_self_iff_true, ite_true, pure, Except.pure,
              Except.ok.injEq, Prod.mk.injEq] at h
            obtain ⟨hl1, hl2⟩ := runLoop_dryRun hdry _ _ _ _ _ _ hl
            obtain ⟨h1, h2⟩ := h
            refine ⟨h1.symm.trans hl1, ?_, ?_⟩
            · rw [← h2]
              show logsOnly _
              repeat
                first
                | exact logsOnly_nil
                | apply logsOnly_cons
                | apply logsOnly_append
                | exact hl2
            · rw [← h2]
              exact Or.inr (by simp))

/-- Concrete dry-run workspace for the C8 witness. -/
def envW : Env where
  parseMeta := fun c => match c with
    | .bytes s => if s = str "JA" then some ⟨some (str "demo")⟩ else none
    | _ => none
  typedocEffect := fun _ fs => .ok fs
  llmsEffect := fun _ fs => .ok fs
  nowStr := str "T0"

def fsW8 : FS where
  files := [(str "/w/orkestrel/demo/package.json", .bytes (str "JA")),
    (str "/w/orkestrel/demo/src/index.ts", .bytes (str "exp"))]
  dirs := [str "/w/orkestrel", str "/w/orkestrel/docs", str "/w/orkestrel/demo",
    str "/w/orkestrel/demo/src"]

def optsW8 : SyncOptions := ⟨[], [], true, false, true, true⟩

theorem runSync_dryRun_pure_witness :
    ∃ tr, runSync envW optsW8 (str "/w/orkestrel/docs") fsW8 = .ok (fsW8, tr) ∧
      ∀ x ∈ tr, Act.isLog x = true := by
  cases hr : runSync envW optsW8 (str "/w/orkestrel/docs") fsW8 with
  | error e =>
    have hok : (runSync envW optsW8 (str "/w/orkestrel/docs") fsW8).toOption.isSome
        = true := rfl
    rw [hr] at hok
    exact absurd hok (by simp [Except.toOption])
  | ok t =>
    obtain ⟨fs', tr⟩ := t
    obtain ⟨h1, h2, _⟩ := runSync_dryRun_pure rfl hr
    subst h1
    exact ⟨tr, rfl, h2⟩


/-! ## C7 — clean mode is scoped per category -/

theorem pathJoin_right_inj {a b c : List Nat} (h : pathJoin a b = pathJoin a c) :
    b = c := by
  unfold pathJoin at h
  have h2 := List.append_cancel_left h
  injection h2

theorem pathJoin_guides_eq_api (r : List Nat) :
    (pathJoin r (str "guides") = pathJoin r (str "api")) = False :=
  eq_false (fun h => absurd (pathJoin_right_inj h) (by decide))

theorem pathJoin_api_eq_guides (r : List Nat) :
    (pathJoin r (str "api") = pathJoin r (str "guides")) = False :=
  eq_false (fun h => absurd (pathJoin_right_inj h) (by decide))

theorem copyGuides_rmrf (a : CopyGuidesArgs) (fs : FS) (q : List Nat) :
    (Act.rmrf q ∈ (copyGuides a fs).2) = False := by
  apply eq_false
  unfold copyGuides
  by_cases hex : fileExists fs (pathJoin a.pkgDir a.guidesRel) = true
  · by_cases hd : a.dryRun = true <;> simp [hex, hd]
  · rw [Bool.not_eq_true] at hex
    simp [hex]

theorem generateApiDocs_eq (env : Env) (a : GenApiArgs) (fs : FS) :
    generateApiDocs env a false fs =
      match env.typedocEffect a fs with
      | .error _ => .error .typedocFailed
      | .ok fs' => .ok (fs', [Act.typedocRun a, Act.log (.generatedApi a.outDir)]) :=
  rfl

theorem generateLlmsOutputs_eq (env : Env) (a : LlmsArgs) (fs : FS) :
    generateLlmsOutputs env a false fs =
      match env.llmsEffect a fs with
      | .error _ => .error .llmsFailed
      | .ok fs' => .ok (fs', [Act.llmsRun a, Act.log (.generatedLlms a.outDir)]) :=
  rfl


theorem generateApiDocs_ok_iff {env : Env} {a : GenApiArgs} {fs : FS}
    {v : FS × List Act} :
    generateApiDocs env a false fs = .ok v ↔
    ∃ fsT, env.typedocEffect a fs = .ok fsT ∧
      v = (fsT, [Act.typedocRun a, Act.log (.generatedApi a.outDir)]) := by
  unfold generateApiDocs
  cases he : env.typedocEffect a fs <;> simp [he, eq_comm]

theorem generateLlmsOutputs_ok_iff {env : Env} {a : LlmsArgs} {fs : FS}
    {v : FS × List Act} :
    generateLlmsOutputs env a false fs = .ok v ↔
    ∃ w, env.llmsEffect a fs = .ok w ∧
      v = (w, [Act.llmsRun a, Act.log (.generatedLlms a.outDir)]) := by
  unfold generateLlmsOutputs
  cases he : env.llmsEffect a fs <;> simp [he, eq_comm]

/-- C7: in clean mode (non-dry-run), the per-package step of `runSync`
emits a removal of the guides output directory exactly when `guidesChanged`
holds and a removal of the API output directory exactly when `apiChanged`
holds; no other path is ever removed, so the prior output directory of a
category whose hash is unchanged is never destroyed.  Outside clean mode
nothing is removed at all. -/
theorem runSync_clean_scoped :
    (∀ (env : Env) (opts : SyncOptions) (dpr tbp : List Nat) (pkg : Pkg)
      (fs : FS) (cache : CacheFile) (fs' : FS) (c' : CacheFile)
      (acts : List Act),
      opts.clean = true → opts.dryRun = false →
      processPackage env opts dpr tbp pkg fs cache = .ok (fs', c', acts) →
      ((Act.rmrf (pathJoin (pathJoin dpr pkg.baseName) (str "guides")) ∈ acts ↔
          HashStr.dig (computeGuidesHash fs pkg.pkgDir) ≠
            (cachedEntry cache pkg.baseName).guidesHash) ∧
       (Act.rmrf (pathJoin (pathJoin dpr pkg.baseName) (str "api")) ∈ acts ↔
          HashStr.dig (computeApiHash fs pkg.pkgDir tbp) ≠
            (cachedEntry cache pkg.baseName).apiHash) ∧
       (∀ q, Act.rmrf q ∈ acts →
          q = pathJoin (pathJoin dpr pkg.baseName) (str "guides") ∨
          q = pathJoin (pathJoin dpr pkg.baseName) (str "api")))) ∧
    (∀ (env : Env) (opts : SyncOptions) (dpr tbp : List Nat) (pkg : Pkg)
      (fs : FS) (cache : CacheFile) (fs' : FS) (c' : CacheFile)
      (acts : List Act),
      opts.clean = false →
      processPackage env opts dpr tbp pkg fs cache = .ok (fs', c', acts) →
      ∀ q, Act.rmrf q ∉ acts) := by
  constructor
  · intro env opts dpr tbp pkg fs cache fs' c' acts hclean hdry h
    unfold processPackage at h
    cases hgb : decide (HashStr.dig (computeGuidesHash fs pkg.pkgDir) ≠
        (cachedEntry cache pkg.baseName).guidesHash) <;>
    cases hab : decide (HashStr.dig (computeApiHash fs pkg.pkgDir tbp) ≠
        (cachedEntry cache pkg.baseName).apiHash) <;>
      simp only [hdry, hclean, hgb, hab, Bool.not_true, Bool.not_false,
        Bool.true_and, Bool.false_and, Bool.and_true, Bool.and_false,
        Bool.true_or, Bool.false_or, Bool.or_true, Bool.or_false,
        Bool.true_eq_false, Bool.false_eq_true, eq_self_iff_true, if_true,
        if_false, ite_true, ite_false, ite_self, apply_ite Prod.fst,
        apply_ite Prod.snd, bind, Except.bind, pure, Except.pure,
        Except.ok.injEq] at h
    all_goals (repeat split at h)
    all_goals (try (exact Except.noConfusion h))
    all_goals (try simp only [generateApiDocs_ok_iff,
      generateLlmsOutputs_ok_iff] at *)
    all_goals (try (casesm* Exists _, _ ∧ _))
    all_goals (try subst_vars)
    all_goals (repeat split at h)
    all_goals (try (exact Except.noConfusion h))
    all_goals (try simp only [generateApiDocs_ok_iff,
      generateLlmsOutputs_ok_iff] at *)
    all_goals (try (casesm* Exists _, _ ∧ _))
    all_goals (try subst_vars)
    all_goals (try (simp only [Except.ok.injEq, Prod.mk.injEq] at h))
    all_goals (try (obtain ⟨h1, h2, h3⟩ := h))
    all_goals (try subst_vars)
    all_goals (
      refine ⟨?_, ?_, ?_⟩
      · first
          | exact iff_of_true (by simp) (of_decide_eq_true hgb)
          | exact iff_of_false
              (by simp [copyGuides_rmrf, pathJoin_guides_eq_api,
                pathJoin_api_eq_guides])
              (fun hc => absurd (decide_eq_true hc) (by rw [hgb]; simp))
      · first
          | exact iff_of_true (by simp) (of_decide_eq_true hab)
          | exact iff_of_false
              (by simp [copyGuides_rmrf, pathJoin_guides_eq_api,
                pathJoin_api_eq_guides])
              (fun hc => absurd (decide_eq_true hc) (by rw [hab]; simp))
      · intro q hq
        first
          | (simp [copyGuides_rmrf, pathJoin_guides_eq_api,
               pathJoin_api_eq_guides] at hq
             try tauto)
          | tauto)
  · intro env opts dpr tbp pkg fs cache fs' c' acts hclean h
    unfold processPackage at h
    cases hgb : decide (HashStr.dig (computeGuidesHash fs pkg.pkgDir) ≠
        (cachedEntry cache pkg.baseName).guidesHash) <;>
    cases hab : decide (HashStr.dig (computeApiHash fs pkg.pkgDir tbp) ≠
        (cachedEntry cache pkg.baseName).apiHash) <;>
    rcases Bool.eq_false_or_eq_true opts.dryRun with hdry | hdry <;>
      simp only [hdry, hclean, hgb, hab, Bool.not_true, Bool.not_false,
        Bool.true_and, Bool.false_and, Bool.and_true, Bool.and_false,
        Bool.true_or, Bool.false_or, Bool.or_true, Bool.or_false,
        Bool.true_eq_false, Bool.false_eq_true, eq_self_iff_true, if_true,
        if_false, ite_true, ite_false, ite_self, apply_ite Prod.fst,
        apply_ite Prod.snd, generateApiDocs_dryRun, generateLlmsOutputs_dryRun,
        bind, Except.bind, pure, Except.pure, Except.ok.injEq] at h
    all_goals (repeat split at h)
    all_goals (try (exact Except.noConfusion h))
    all_goals (try simp only [generateApiDocs_ok_iff,
      generateLlmsOutputs_ok_iff] at *)
    all_goals (try (casesm* Exists _, _ ∧ _))
    all_goals (try subst_vars)
    all_goals (repeat split at h)
    all_goals (try (exact Except.noConfusion h))
    all_goals (try simp only [generateApiDocs_ok_iff,
      generateLlmsOutputs_ok_iff] at *)
    all_goals (try (casesm* Exists _, _ ∧ _))
    all_goals (try subst_vars)
    all_goals (try (simp only [Except.ok.injEq, Prod.mk.injEq] at h))
    all_goals (try (obtain ⟨h1, h2, h3⟩ := h))
    all_goals (try subst_vars)
    all_goals (
      intro q hq
      first
        | (simp [copyGuides_rmrf, pathJoin_guides_eq_api,
             pathJoin_api_eq_guides] at hq
           try tauto)
        | tauto)


/-- Concrete clean-mode options for the C7 witness. -/
def optsC7 : SyncOptions := ⟨[], [], true, false, false, false⟩

def pkgC7 : Pkg := ⟨str "/w/orkestrel/demo", str "demo"⟩

theorem runSync_clean_scoped_witness :
    ∃ fs' c' acts,
      processPackage envW optsC7 (str "/w/orkestrel/docs/packages")
        (str "/w/orkestrel/docs/typedoc.base.json") pkgC7 fsW8 emptyCacheFile =
        .ok (fs', c', acts) ∧
      ((Act.rmrf (pathJoin (pathJoin (str "/w/orkestrel/docs/packages")
          pkgC7.baseName) (str "guides")) ∈ acts ↔
        HashStr.dig (computeGuidesHash fsW8 pkgC7.pkgDir) ≠
          (cachedEntry emptyCacheFile pkgC7.baseName).guidesHash) ∧
       (Act.rmrf (pathJoin (pathJoin (str "/w/orkestrel/docs/packages")
          pkgC7.baseName) (str "api")) ∈ acts ↔
        HashStr.dig (computeApiHash fsW8 pkgC7.pkgDir
            (str "/w/orkestrel/docs/typedoc.base.json")) ≠
          (cachedEntry emptyCacheFile pkgC7.baseName).apiHash) ∧
       (∀ q, Act.rmrf q ∈ acts →
          q = pathJoin (pathJoin (str "/w/orkestrel/docs/packages")
            pkgC7.baseName) (str "guides") ∨
          q = pathJoin (pathJoin (str "/w/orkestrel/docs/packages")
            pkgC7.baseName) (str "api"))) := by
  cases hr : processPackage envW optsC7 (str "/w/orkestrel/docs/packages")
      (str "/w/orkestrel/docs/typedoc.base.json") pkgC7 fsW8 emptyCacheFile with
  | error e =>
    have hok : (processPackage envW optsC7 (str "/w/orkestrel/docs/packages")
        (str "/w/orkestrel/docs/typedoc.base.json") pkgC7 fsW8
        emptyCacheFile).toOption.isSome = true := rfl
    rw [hr] at hok
    exact absurd hok (by simp [Except.toOption])
  | ok t =>
    obtain ⟨fs', c', acts⟩ := t
    exact ⟨fs', c', acts, rfl,
      runSync_clean_scoped.1 envW optsC7 (str "/w/orkestrel/docs/packages")
        (str "/w/orkestrel/docs/typedoc.base.json") pkgC7 fsW8 emptyCacheFile
        fs' c' acts rfl rfl hr⟩


/-! ## Path algebra for the idempotence claim -/

theorem underDir_pathJoin (a b : List Nat) : underDir a (pathJoin a b) = true := by
  unfold underDir pathJoin
  apply decide_eq_true
  exact ⟨b, by simp⟩

theorem underEq_pathJoin (a b : List Nat) : underEq a (pathJoin a b) = true := by
  unfold underEq
  rw [underDir_pathJoin]
  simp

theorem underEq_refl (a : List Nat) : underEq a a = true := by
  unfold underEq
  simp

theorem underDir_trans {a b c : List Nat} (h1 : underDir a b = true)
    (h2 : underDir b c = true) : underDir a c = true := by
  unfold underDir at *
  rw [decide_eq_true_eq] at *
  obtain ⟨r1, hr1⟩ := h1
  obtain ⟨r2, hr2⟩ := h2
  exact ⟨r1 ++ sep :: r2, by rw [← hr2, ← hr1]; simp⟩

theorem underEq_trans {a b c : List Nat} (h1 : underEq a b = true)
    (h2 : underEq b c = true) : underEq a c = true := by
  unfold underEq at *
  rw [Bool.or_eq_true, decide_eq_true_eq] at h1 h2
  rcases h1 with h1 | h1 <;> rcases h2 with h2 | h2
  · subst h1; subst h2; simp
  · subst h1; simp [h2]
  · subst h2; simp [h1]
  · simp [underDir_trans h1 h2]

theorem underDir_underEq {a b : List Nat} (h : underDir a b = true) :
    underEq a b = true := by
  unfold underEq
  rw [h]
  simp

/-- A nonempty directory-entry name contains no separator; a path one
component below another determines the component. -/
theorem slashFree_component {a b s t : List Nat}
    (ha : sep ∉ a) (hb : sep ∉ b)
    (hs : s = [] ∨ ∃ r, s = sep :: r) (ht : t = [] ∨ ∃ r, t = sep :: r)
    (h : a ++ s = b ++ t) : a = b := by
  induction a generalizing b with
  | nil =>
    cases b with
    | nil => rfl
    | cons x xs =>
      rcases hs with hs | ⟨r, hs⟩
      · rw [hs] at h
        exact absurd h.symm (by simp)
      · rw [hs] at h
        simp at h
        exact absurd (h.1 ▸ List.mem_cons_self x xs) (h.1 ▸ hb)
  | cons x xs ih =>
    cases b with
    | nil =>
      rcases ht with ht | ⟨r, ht⟩
      · rw [ht] at h
        exact absurd h (by simp)
      · rw [ht] at h
        simp at h
        exact absurd (h.1 ▸ List.mem_cons_self x xs) (h.1 ▸ ha)
    | cons y ys =>
      simp at h
      rw [h.1]
      have := ih (fun hm => ha (List.mem_cons_of_mem x hm))
        (fun hm => hb (h.1 ▸ List.mem_cons_of_mem x hm)) h.2
      rw [this]


theorem takeWhile_no_sep (l r : List Nat) (h : sep ∉ l) :
    (l ++ sep :: r).takeWhile (· ≠ sep) = l := by
  induction l with
  | nil => simp [List.takeWhile_cons]
  | cons x xs ih =>
    simp only [List.mem_cons, not_or] at h
    have hx : x ≠ sep := fun he => h.1 he.symm
    simp [List.takeWhile_cons, hx]
    simpa using ih h.2

theorem dropWhile_no_sep (l r : List Nat) (h : sep ∉ l) :
    (l ++ sep :: r).dropWhile (· ≠ sep) = sep :: r := by
  induction l with
  | nil => simp [List.dropWhile_cons]
  | cons x xs ih =>
    simp only [List.mem_cons, not_or] at h
    have hx : x ≠ sep := fun he => h.1 he.symm
    simp [List.dropWhile_cons, hx]
    simpa using ih h.2

theorem basename_pathJoin {a b : List Nat} (hb : sep ∉ b) :
    basename (pathJoin a b) = b := by
  unfold basename pathJoin
  have h1 : (a ++ sep :: b).reverse = b.reverse ++ sep :: a.reverse := by simp
  rw [h1, takeWhile_no_sep _ _ (by simpa using hb), List.reverse_reverse]

theorem dirname_pathJoin {a b : List Nat} (hb : sep ∉ b) :
    dirname (pathJoin a b) = a := by
  unfold dirname pathJoin
  have h1 : (a ++ sep :: b).reverse = b.reverse ++ sep :: a.reverse := by simp
  rw [h1, dropWhile_no_sep _ _ (by simpa using hb)]
  simp

theorem underEq_cases {d p : List Nat} (h : underEq d p = true) :
    p = d ∨ ∃ r, p = d ++ sep :: r := by
  unfold underEq underDir at h
  rw [Bool.or_eq_true, decide_eq_true_eq, decide_eq_true_eq] at h
  rcases h with h | h
  · exact Or.inl h.symm
  · obtain ⟨r, hr⟩ := h
    exact Or.inr ⟨r, by rw [← hr]; simp⟩

theorem underEq_pathJoin_disjoint {x n1 n2 : List Nat}
    (h1 : sep ∉ n1) (h2 : sep ∉ n2) (hne : n1 ≠ n2) {p : List Nat}
    (hp : underEq (pathJoin x n1) p = true) :
    underEq (pathJoin x n2) p = false := by
  cases hq : underEq (pathJoin x n2) p with
  | false => rfl
  | true =>
    exfalso
    apply hne
    rcases underEq_cases hp with hp1 | ⟨r1, hp1⟩ <;>
      rcases underEq_cases hq with hq1 | ⟨r2, hq1⟩
    · have h0 := hp1.symm.trans hq1
      unfold pathJoin at h0
      have h3 := List.append_cancel_left h0
      injection h3 with h4 h5
    · have h0 := hp1.symm.trans hq1
      unfold pathJoin at h0
      rw [List.append_assoc] at h0
      have h3 := List.append_cancel_left h0
      simp only [List.cons_append] at h3
      injection h3 with h4 h5
      exact slashFree_component h1 h2 (Or.inl rfl) (Or.inr ⟨r2, rfl⟩)
        (by simpa using h5)
    · have h0 := hp1.symm.trans hq1
      unfold pathJoin at h0
      rw [List.append_assoc] at h0
      have h3 := List.append_cancel_left h0.symm
      simp only [List.cons_append] at h3
      injection h3 with h4 h5
      exact slashFree_component h1 h2 (Or.inr ⟨r1, rfl⟩) (Or.inl rfl)
        (by simpa using h5.symm)
    · have h0 := hp1.symm.trans hq1
      unfold pathJoin at h0
      rw [List.append_assoc, List.append_assoc] at h0
      have h3 := List.append_cancel_left h0
      simp only [List.cons_append] at h3
      injection h3 with h4 h5
      exact slashFree_component h1 h2 (Or.inr ⟨r1, rfl⟩) (Or.inr ⟨r2, rfl⟩) h5

theorem isDirectChild_decomp {parent d : List Nat}
    (h : isDirectChild parent d = true) :
    ∃ name, d = pathJoin parent name ∧ sep ∉ name ∧ name ≠ [] := by
  unfold isDirectChild at h
  rw [Bool.and_eq_true, Bool.and_eq_true] at h
  obtain ⟨⟨hu, hns⟩, hne⟩ := h
  unfold underDir at hu
  rw [decide_eq_true_eq] at hu
  obtain ⟨rest, hrest⟩ := hu
  have hdrop : d.drop (parent.length + 1) = rest := by
    rw [← hrest]
    have hl : (parent ++ [sep]).length = parent.length + 1 := by simp
    rw [← hl, List.drop_left]
  refine ⟨rest, by rw [← hrest]; simp [pathJoin], ?_, ?_⟩
  · rw [decide_eq_true_eq] at hns
    rw [hdrop] at hns
    exact hns
  · intro hg
    rw [hdrop, hg] at hne
    simp at hne

/-! ### Frame relation: two snapshots agreeing outside a subtree -/

/-- `fs` and `fs'` agree outside the subtree rooted at `region`: the files and
directories not at or below `region` are the same, in the same order. -/
def FrameEq (region : List Nat) (fs fs' : FS) : Prop :=
  fs'.files.filter (fun f => !underEq region f.1) =
    fs.files.filter (fun f => !underEq region f.1) ∧
  fs'.dirs.filter (fun d => !underEq region d) =
    fs.dirs.filter (fun d => !underEq region d)

theorem FrameEq_refl (region : List Nat) (fs : FS) : FrameEq region fs fs :=
  ⟨Eq.refl _, Eq.refl _⟩

theorem FrameEq_trans {region : List Nat} {fs1 fs2 fs3 : FS}
    (h1 : FrameEq region fs1 fs2) (h2 : FrameEq region fs2 fs3) :
    FrameEq region fs1 fs3 := ⟨h2.1.trans h1.1, h2.2.trans h1.2⟩

theorem FrameEq_mono {r R : List Nat} {fs fs' : FS} (h : FrameEq r fs fs')
    (hsub : ∀ p, underEq r p = true → underEq R p = true) :
    FrameEq R fs fs' := by
  have himp : ∀ f : List Nat × Content,
      (!underEq R f.1) = true → (!underEq r f.1) = true := by
    intro f hf
    cases hq : underEq r f.1 with
    | false => rfl
    | true =>
      rw [Bool.not_eq_true', hsub f.1 hq] at hf
      exact absurd hf (by simp)
  have himpd : ∀ d : List Nat,
      (!underEq R d) = true → (!underEq r d) = true := by
    intro d hd
    cases hq : underEq r d with
    | false => rfl
    | true =>
      rw [Bool.not_eq_true', hsub d hq] at hd
      exact absurd hd (by simp)
  exact ⟨filter_eq_of_imp h.1 himp, filter_eq_of_imp h.2 himpd⟩

theorem any_key_filter {α β : Type} [DecidableEq α] {l : List (α × β)}
    {P : α × β → Bool} {p : α} (h : ∀ f : α × β, f.1 = p → P f = true) :
    (l.filter P).any (fun f => f.1 = p) = l.any (fun f => f.1 = p) := by
  induction l with
  | nil => rfl
  | cons f t ih =>
    by_cases hf : f.1 = p
    · rw [List.filter_cons, h f hf]
      simp [hf]
    · by_cases hP : P f = true
      · rw [List.filter_cons, if_pos hP]
        simp [hf, ih]
      · rw [List.filter_cons, if_neg hP]
        simp [hf, ih]

theorem any_eq_filter {α : Type} [DecidableEq α] {l : List α} {P : α → Bool}
    {p : α} (h : P p = true) :
    (l.filter P).any (fun d => d = p) = l.any (fun d => d = p) := by
  induction l with
  | nil => rfl
  | cons x t ih =>
    by_cases hx : x = p
    · subst hx
      rw [List.filter_cons, if_pos h]
      simp
    · by_cases hP : P x = true
      · rw [List.filter_cons, if_pos hP]
        simp [hx, ih]
      · rw [List.filter_cons, if_neg hP]
        simp [hx, ih]

theorem readFile_frame {r : List Nat} {fs fs' : FS} (h : FrameEq r fs fs')
    {p : List Nat} (hp : underEq r p = false) :
    readFile fs' p = readFile fs p := by
  have hkey : ∀ f : List Nat × Content, f.1 = p → (!underEq r f.1) = true := by
    intro f hf
    rw [hf, hp]
    rfl
  have e1 : (fs'.files.filter (fun f => !underEq r f.1)).find? (fun f => f.1 = p) =
      fs'.files.find? (fun f => f.1 = p) := find?_key_filter _ hkey
  have e2 : (fs.files.filter (fun f => !underEq r f.1)).find? (fun f => f.1 = p) =
      fs.files.find? (fun f => f.1 = p) := find?_key_filter _ hkey
  unfold readFile
  rw [← e1, h.1, e2]

theorem readFileD_frame {r : List Nat} {fs fs' : FS} (h : FrameEq r fs fs')
    {p : List Nat} (hp : underEq r p = false) :
    readFileD fs' p = readFileD fs p := by
  unfold readFileD
  rw [readFile_frame h hp]

theorem isFile_frame {r : List Nat} {fs fs' : FS} (h : FrameEq r fs fs')
    {p : List Nat} (hp : underEq r p = false) :
    isFile fs' p = isFile fs p := by
  have hkey : ∀ f : List Nat × Content, f.1 = p → (!underEq r f.1) = true := by
    intro f hf
    rw [hf, hp]
    rfl
  have e1 : (fs'.files.filter (fun f => !underEq r f.1)).any (fun f => f.1 = p) =
      fs'.files.any (fun f => f.1 = p) := any_key_filter hkey
  have e2 : (fs.files.filter (fun f => !underEq r f.1)).any (fun f => f.1 = p) =
      fs.files.any (fun f => f.1 = p) := any_key_filter hkey
  unfold isFile
  rw [← e1, h.1, e2]

theorem isDir_frame {r : List Nat} {fs fs' : FS} (h : FrameEq r fs fs')
    {d : List Nat} (hd : underEq r d = false) :
    isDir fs' d = isDir fs d := by
  have hP : (!underEq r d) = true := by rw [hd]; rfl
  have e1 : (fs'.dirs.filter (fun q => !underEq r q)).any (fun q => q = d) =
      fs'.dirs.any (fun q => q = d) := any_eq_filter hP
  have e2 : (fs.dirs.filter (fun q => !underEq r q)).any (fun q => q = d) =
      fs.dirs.any (fun q => q = d) := any_eq_filter hP
  unfold isDir
  rw [← e1, h.2, e2]

theorem fileExists_frame {r : List Nat} {fs fs' : FS} (h : FrameEq r fs fs')
    {p : List Nat} (hp : underEq r p = false) :
    fileExists fs' p = fileExists fs p := by
  unfold fileExists
  rw [isFile_frame h hp, isDir_frame h hp]

theorem hashFile_frame {r : List Nat} {fs fs' : FS} (h : FrameEq r fs fs')
    {p : List Nat} (hp : underEq r p = false) :
    hashFile fs' p = hashFile fs p := by
  unfold hashFile
  rw [readFileD_frame h hp]

theorem walkDir_frame {r : List Nat} {fs fs' : FS} (h : FrameEq r fs fs')
    {d : List Nat} (hd : ∀ q, underDir d q = true → underEq r q = false) :
    walkDir fs' d = walkDir fs d := by
  have himp : ∀ f : List Nat × Content,
      underDir d f.1 = true → (!underEq r f.1) = true := by
    intro f hf
    rw [hd f.1 hf]
    rfl
  unfold walkDir
  rw [filter_eq_of_imp h.1 himp]

theorem mem_walkDir {fs : FS} {d x : List Nat} (h : x ∈ walkDir fs d) :
    underDir d x = true := by
  unfold walkDir at h
  rw [List.mem_map] at h
  obtain ⟨f, hf, hfx⟩ := h
  rw [List.mem_filter] at hf
  rw [← hfx]
  exact hf.2

theorem computeGuidesHash_frame {r : List Nat} {fs fs' : FS}
    (h : FrameEq r fs fs') {pkgDir : List Nat}
    (hdis : ∀ q, underEq pkgDir q = true → underEq r q = false) :
    computeGuidesHash fs' pkgDir = computeGuidesHash fs pkgDir := by
  unfold computeGuidesHash
  dsimp only
  have hgd : underEq pkgDir (pathJoin pkgDir (str "guides")) = true :=
    underEq_pathJoin _ _
  have hsub : ∀ q, underDir (pathJoin pkgDir (str "guides")) q = true →
      underEq r q = false := by
    intro q hq
    exact hdis q (underEq_trans hgd (underDir_underEq hq))
  rw [isDir_frame h (hdis _ hgd), walkDir_frame h hsub]
  cases isDir fs (pathJoin pkgDir (str "guides")) with
  | false => rfl
  | true =>
    simp only [Bool.not_true]
    apply flatMap_congr
    intro x hx
    have hxw : x ∈ walkDir fs (pathJoin pkgDir (str "guides")) :=
      (sortPaths_perm _).mem_iff.1 hx
    exact hashFile_frame h (hsub x (mem_walkDir hxw))

theorem computeApiHash_frame {r : List Nat} {fs fs' : FS}
    (h : FrameEq r fs fs') {pkgDir typedocBasePath : List Nat}
    (hdis : ∀ q, underEq pkgDir q = true → underEq r q = false)
    (htb : underEq r typedocBasePath = false) :
    computeApiHash fs' pkgDir typedocBasePath =
      computeApiHash fs pkgDir typedocBasePath := by
  unfold computeApiHash
  dsimp only
  have hsd : underEq pkgDir (pathJoin pkgDir (str "src")) = true :=
    underEq_pathJoin _ _
  have hsub : ∀ q, underDir (pathJoin pkgDir (str "src")) q = true →
      underEq r q = false := by
    intro q hq
    exact hdis q (underEq_trans hsd (underDir_underEq hq))
  rw [isDir_frame h (hdis _ hsd), walkDir_frame h hsub,
    fileExists_frame h htb, hashFile_frame h htb]
  cases isDir fs (pathJoin pkgDir (str "src")) with
  | false => rfl
  | true =>
    simp only [Bool.not_true]
    congr 1
    apply flatMap_congr
    intro x hx
    have hxw : x ∈ (walkDir fs (pathJoin pkgDir (str "src"))).filter
        (fun f => !shouldSkipForApi f) := (sortPaths_perm _).mem_iff.1 hx
    rw [List.mem_filter] at hxw
    exact hashFile_frame h (hsub x (mem_walkDir hxw.1))

theorem filter_filter_imp {α : Type} {l : List α} {A Q : α → Bool}
    (h : ∀ x, Q x = true → A x = true) :
    (l.filter A).filter Q = l.filter Q := by
  induction l with
  | nil => rfl
  | cons x t ih =>
    by_cases hq : Q x = true
    · rw [List.filter_cons, if_pos (h x hq), List.filter_cons, if_pos hq,
        List.filter_cons, if_pos hq, ih]
    · by_cases hA : A x = true
      · rw [List.filter_cons, if_pos hA, List.filter_cons, if_neg hq,
          List.filter_cons, if_neg hq, ih]
      · rw [List.filter_cons, if_neg hA, List.filter_cons, if_neg hq, ih]

theorem FrameEq_setFileContent {r : List Nat} (fs : FS) {p : List Nat}
    (c : Content) (hp : underEq r p = true) :
    FrameEq r fs (setFileContent fs p c) := by
  constructor
  · show (setFileContent fs p c).files.filter _ = _
    unfold setFileContent
    dsimp only
    rw [show (fun f : List Nat × Content => !underEq r f.1) =
        (fun f : List Nat × Content => (fun q => !underEq r q) f.1) from rfl]
    have hkey := filter_key_map_key_preserving fs.files
      (fun f => if f.1 = p then (f.1, c) else f)
      (setFileContent_key_preserving p c) (fun q => !underEq r q)
    rw [hkey]
    have hcong : ∀ f ∈ fs.files.filter (fun f => (fun q => !underEq r q) f.1),
        (fun f : List Nat × Content => if f.1 = p then (f.1, c) else f) f = id f := by
      intro f hf
      rw [List.mem_filter] at hf
      have hne : f.1 ≠ p := by
        intro he
        rw [he] at hf
        simp [hp] at hf
      simp [hne]
    rw [List.map_congr_left hcong, List.map_id]
  · rfl

theorem FrameEq_appendFile {r : List Nat} (fs : FS) {p : List Nat}
    (c : Content) (hp : underEq r p = true) :
    FrameEq r fs { fs with files := fs.files ++ [(p, c)] } := by
  constructor
  · show (fs.files ++ [(p, c)]).filter _ = _
    rw [List.filter_append]
    have : ([(p, c)] : List (List Nat × Content)).filter
        (fun f => !underEq r f.1) = [] := by
      rw [List.filter_cons]
      rw [if_neg (by simp [hp])]
      rfl
    rw [this, List.append_nil]
  · rfl

theorem FrameEq_writeFile {r : List Nat} {fs fs' : FS} {p : List Nat}
    {c : Content} (h : writeFile fs p c = .ok fs') (hp : underEq r p = true) :
    FrameEq r fs fs' := by
  unfold writeFile at h
  split at h
  · rw [Except.ok.injEq] at h
    by_cases hf : isFile fs p = true
    · rw [if_pos hf] at h
      rw [← h]
      exact FrameEq_setFileContent fs c hp
    · rw [if_neg hf] at h
      rw [← h]
      exact FrameEq_appendFile fs c hp
  · exact Except.noConfusion h

theorem FrameEq_mkdirp {r : List Nat} (fs : FS) {p : List Nat}
    (hp : underEq r p = true) : FrameEq r fs (mkdirp fs p) := by
  unfold mkdirp
  split
  · exact FrameEq_refl r fs
  · constructor
    · rfl
    · show (fs.dirs ++ [p]).filter _ = _
      rw [List.filter_append]
      have : ([p] : List (List Nat)).filter (fun d => !underEq r d) = [] := by
        rw [List.filter_cons]
        rw [if_neg (by simp [hp])]
        rfl
      rw [this, List.append_nil]

theorem FrameEq_rmTree {r : List Nat} (fs : FS) {p : List Nat}
    (hp : underEq r p = true) : FrameEq r fs (rmTree fs p) := by
  constructor
  · show (fs.files.filter _).filter _ = _
    apply filter_filter_imp
    intro f hf
    cases hu : underEq p f.1 with
    | false => simp [hu]
    | true =>
      rw [Bool.not_eq_true', underEq_trans hp hu] at hf
      exact absurd hf (by simp)
  · show (fs.dirs.filter _).filter _ = _
    apply filter_filter_imp
    intro d hd
    cases hu : underEq p d with
    | false => simp [hu]
    | true =>
      rw [Bool.not_eq_true', underEq_trans hp hu] at hd
      exact absurd hd (by simp)

theorem reloc_under (dst : List Nat) {src q : List Nat}
    (h : underDir src q = true) :
    ∃ t, q = src ++ sep :: t ∧ dst ++ q.drop src.length = pathJoin dst t := by
  unfold underDir at h
  rw [decide_eq_true_eq] at h
  obtain ⟨t, ht⟩ := h
  refine ⟨t, by rw [← ht]; simp, ?_⟩
  rw [← ht]
  have h2 : src ++ [sep] ++ t = src ++ ([sep] ++ t) := by simp
  rw [h2, List.drop_left]
  simp [pathJoin]

theorem FrameEq_cpTree {r : List Nat} (fs : FS) {src dst : List Nat}
    (hdst : underEq r dst = true) : FrameEq r fs (cpTree fs src dst) := by
  have hnew : ∀ f ∈ (fs.files.filter (fun f => underDir src f.1)).map
      (fun f => (dst ++ f.1.drop src.length, f.2)), underEq r f.1 = true := by
    intro f hf
    rw [List.mem_map] at hf
    obtain ⟨g, hg, hgf⟩ := hf
    rw [List.mem_filter] at hg
    obtain ⟨t, _, hrel⟩ := reloc_under dst hg.2
    rw [← hgf]
    show underEq r (dst ++ g.1.drop src.length) = true
    rw [hrel]
    exact underEq_trans hdst (underEq_pathJoin _ _)
  constructor
  · show (fs.files.filter _ ++ _).filter _ = _
    rw [List.filter_append]
    have h2 : ((fs.files.filter (fun f => underDir src f.1)).map
        (fun f => (dst ++ f.1.drop src.length, f.2))).filter
        (fun f => !underEq r f.1) = [] := by
      rw [List.filter_eq_nil_iff]
      intro f hf
      rw [hnew f hf]
      simp
    rw [h2, List.append_nil]
    apply filter_filter_imp
    intro f hf
    cases ha : ((fs.files.filter (fun f => underDir src f.1)).map
        (fun f => (dst ++ f.1.drop src.length, f.2))).map Prod.fst
        |>.any (fun q => q = f.1) with
    | false => simp [ha]
    | true =>
      exfalso
      rw [List.any_eq_true] at ha
      obtain ⟨q, hq, hqf⟩ := ha
      rw [List.mem_map] at hq
      obtain ⟨g, hg, hgq⟩ := hq
      rw [decide_eq_true_eq] at hqf
      have : underEq r f.1 = true := by
        rw [← hqf, ← hgq]
        exact hnew g hg
      rw [Bool.not_eq_true', this] at hf
      exact absurd hf (by simp)
  · show (fs.dirs ++ _).filter _ = _
    rw [List.filter_append]
    have h2 : ((((fs.dirs.filter (fun d => underDir src d)).map
        (fun p => dst ++ p.drop src.length)).filter
        (fun d => !(fs.dirs.any (fun e => e = d)))).dedup).filter
        (fun d => !underEq r d) = [] := by
      rw [List.filter_eq_nil_iff]
      intro d hd
      rw [List.mem_dedup, List.mem_filter] at hd
      obtain ⟨hd1, _⟩ := hd
      rw [List.mem_map] at hd1
      obtain ⟨g, hg, hgd⟩ := hd1
      rw [List.mem_filter] at hg
      obtain ⟨t, _, hrel⟩ := reloc_under dst hg.2
      rw [← hgd, hrel, underEq_trans hdst (underEq_pathJoin _ _)]
      simp
    rw [h2, List.append_nil]

/-! ### Preservation of well-formedness by the filesystem operations -/

theorem keys_setFileContent (fs : FS) (p : List Nat) (c : Content) :
    (setFileContent fs p c).files.map Prod.fst = fs.files.map Prod.fst := by
  unfold setFileContent
  dsimp only
  rw [List.map_map]
  apply List.map_congr_left
  intro f _
  exact setFileContent_key_preserving p c f

theorem WF_setFileContent {fs : FS} (hwf : fs.WF) (p : List Nat) (c : Content) :
    (setFileContent fs p c).WF := by
  unfold FS.WF
  rw [keys_setFileContent]
  exact hwf

theorem not_mem_keys_of_isFile_false {fs : FS} {p : List Nat}
    (h : isFile fs p = false) : p ∉ fs.files.map Prod.fst := by
  intro hm
  rw [List.mem_map] at hm
  obtain ⟨f, hf, hfp⟩ := hm
  have : fs.files.any (fun f => f.1 = p) = true :=
    List.any_eq_true.2 ⟨f, hf, by simp [hfp]⟩
  rw [isFile] at h
  rw [h] at this
  exact Bool.false_ne_true this

theorem WF_appendFile {fs : FS} (hwf : fs.WF) {p : List Nat} (c : Content)
    (h : isFile fs p = false) : FS.WF { fs with files := fs.files ++ [(p, c)] } := by
  unfold FS.WF
  dsimp only
  rw [List.map_append]
  apply List.Nodup.append hwf (by simp)
  rw [List.disjoint_right]
  intro a ha
  simp only [List.map_cons, List.map_nil, List.mem_singleton] at ha
  rw [ha]
  exact not_mem_keys_of_isFile_false h

theorem WF_writeFile {fs fs' : FS} {p : List Nat} {c : Content} (hwf : fs.WF)
    (h : writeFile fs p c = .ok fs') : fs'.WF := by
  unfold writeFile at h
  split at h
  · rw [Except.ok.injEq] at h
    by_cases hf : isFile fs p = true
    · rw [if_pos hf] at h
      rw [← h]
      exact WF_setFileContent hwf p c
    · rw [if_neg hf] at h
      rw [← h]
      exact WF_appendFile hwf c (by simpa using hf)
  · exact Except.noConfusion h

theorem WF_mkdirp {fs : FS} (hwf : fs.WF) (p : List Nat) : (mkdirp fs p).WF := by
  unfold mkdirp
  split
  · exact hwf
  · exact hwf

theorem WF_rmTree {fs : FS} (hwf : fs.WF) (p : List Nat) : (rmTree fs p).WF := by
  unfold FS.WF rmTree
  dsimp only
  exact ((List.filter_sublist fs.files).map Prod.fst).nodup hwf

theorem WF_cpTree {fs : FS} (hwf : fs.WF) (src dst : List Nat) :
    (cpTree fs src dst).WF := by
  unfold FS.WF cpTree
  dsimp only
  rw [List.map_append]
  have hkept : ((fs.files.filter (fun f =>
      !(((fs.files.filter (fun f => underDir src f.1)).map
        (fun f => (dst ++ f.1.drop src.length, f.2))).map Prod.fst).any
          (fun q => q = f.1))).map Prod.fst).Nodup :=
    ((List.filter_sublist fs.files).map Prod.fst).nodup hwf
  have hnewkeys : ((fs.files.filter (fun f => underDir src f.1)).map
      (fun f => (dst ++ f.1.drop src.length, f.2))).map Prod.fst =
      ((fs.files.filter (fun f => underDir src f.1)).map Prod.fst).map
        (fun q => dst ++ q.drop src.length) := by
    rw [List.map_map, List.map_map]
    rfl
  have hnew : (((fs.files.filter (fun f => underDir src f.1)).map
      (fun f => (dst ++ f.1.drop src.length, f.2))).map Prod.fst).Nodup := by
    rw [hnewkeys]
    have hinner : ((fs.files.filter (fun f => underDir src f.1)).map Prod.fst).Nodup :=
      ((List.filter_sublist fs.files).map Prod.fst).nodup hwf
    apply hinner.map_on
    intro x hx y hy hxy
    rw [List.mem_map] at hx hy
    obtain ⟨fx, hfx, hfx1⟩ := hx
    obtain ⟨fy, hfy, hfy1⟩ := hy
    rw [List.mem_filter] at hfx hfy
    obtain ⟨tx, hqx, hrx⟩ := reloc_under dst (show underDir src x = true from hfx1 ▸ hfx.2)
    obtain ⟨ty, hqy, hry⟩ := reloc_under dst (show underDir src y = true from hfy1 ▸ hfy.2)
    rw [hrx, hry] at hxy
    unfold pathJoin at hxy
    have h3 := List.append_cancel_left hxy
    injection h3 with h4 h5
    rw [hqx, hqy, h5]
  apply hkept.append hnew
  rw [List.disjoint_left]
  intro a ha hb
  rw [List.mem_map] at ha
  obtain ⟨f, hf, hf1⟩ := ha
  rw [List.mem_filter] at hf
  have : (((fs.files.filter (fun f => underDir src f.1)).map
      (fun f => (dst ++ f.1.drop src.length, f.2))).map Prod.fst).any
        (fun q => q = f.1) = true := by
    apply List.any_eq_true.2
    exact ⟨a, hb, by simp [hf1]⟩
  rw [this] at hf
  exact absurd hf.2 (by simp)

/-! ### Rewriting a file with its current content is the identity -/

theorem find?_key_of_mem {α β : Type} [DecidableEq α] {l : List (α × β)}
    (hnd : (l.map Prod.fst).Nodup) {f : α × β} (hf : f ∈ l) :
    l.find? (fun g => g.1 = f.1) = some f := by
  induction l with
  | nil => cases hf
  | cons g t ih =>
    rw [List.map_cons, List.nodup_cons] at hnd
    rcases List.mem_cons.1 hf with he | ht
    · subst he
      rw [List.find?_cons_of_pos _ (by simp)]
    · have hne : (fun g : α × β => decide (g.1 = f.1)) g = false := by
        simp only [decide_eq_false_iff_not]
        intro he
        exact hnd.1 (he ▸ (List.mem_map.2 ⟨f, ht, rfl⟩))
      simp only [List.find?_cons, hne]
      exact ih hnd.2 ht

theorem setFileContent_id {fs : FS} {p : List Nat} {c : Content} (hwf : fs.WF)
    (h : readFile fs p = some c) : setFileContent fs p c = fs := by
  unfold setFileContent
  have hmap : fs.files.map (fun f => if f.1 = p then (f.1, c) else f) = fs.files := by
    have hcong : ∀ f ∈ fs.files,
        (fun f : List Nat × Content => if f.1 = p then (f.1, c) else f) f = id f := by
      intro f hf
      by_cases hfp : f.1 = p
      · have hfind := find?_key_of_mem hwf hf
        subst hfp
        unfold readFile at h
        rw [hfind] at h
        have h2 : f.2 = c := by simpa using h
        show (if f.1 = f.1 then (f.1, c) else f) = f
        rw [if_pos rfl, ← h2]
      · simp [hfp]
    rw [List.map_congr_left hcong, List.map_id]
  rw [hmap]

/-! ### In-memory cache updates -/

theorem setPkgEntry_version (c : CacheFile) (b : List Nat) (e : CacheEntry) :
    (setPkgEntry c b e).version = c.version := rfl

theorem cachedEntry_setPkgEntry_same (c : CacheFile) (b : List Nat)
    (e : CacheEntry) : cachedEntry (setPkgEntry c b e) b = e := by
  unfold cachedEntry setPkgEntry
  dsimp only
  by_cases ha : c.packages.any (fun f => f.1 = b) = true
  · rw [if_pos ha]
    have hkey := find?_map_key_preserving
      (fun f : List Nat × CacheEntry => if f.1 = b then (f.1, e) else f)
      (fun f => by by_cases hf : f.1 = b <;> simp [hf]) b c.packages
    rw [hkey]
    rw [List.any_eq_true] at ha
    obtain ⟨f, hmem, hfb⟩ := ha
    cases hg : c.packages.find? (fun f => f.1 = b) with
    | none =>
      rw [List.find?_eq_none] at hg
      exact absurd hfb (by simpa using hg f hmem)
    | some g =>
      have hgb : g.1 = b := by simpa using List.find?_some hg
      simp [hgb]
  · rw [if_neg ha]
    have hnone : c.packages.find? (fun f => f.1 = b) = none := by
      rw [List.find?_eq_none]
      intro f hmem hfb
      rw [Bool.not_eq_true] at ha
      have h2 : c.packages.any (fun f => f.1 = b) = true :=
        List.any_eq_true.2 ⟨f, hmem, hfb⟩
      rw [ha] at h2
      exact Bool.false_ne_true h2
    rw [List.find?_append, hnone]
    simp [List.find?_cons]

theorem cachedEntry_setPkgEntry_other (c : CacheFile) (b : List Nat)
    (e : CacheEntry) {q : List Nat} (hne : q ≠ b) :
    cachedEntry (setPkgEntry c b e) q = cachedEntry c q := by
  unfold cachedEntry setPkgEntry
  dsimp only
  by_cases ha : c.packages.any (fun f => f.1 = b) = true
  · rw [if_pos ha]
    have hkey := find?_map_key_preserving
      (fun f : List Nat × CacheEntry => if f.1 = b then (f.1, e) else f)
      (fun f => by by_cases hf : f.1 = b <;> simp [hf]) q c.packages
    rw [hkey]
    cases hg : c.packages.find? (fun f => f.1 = q) with
    | none => rfl
    | some g =>
      have hgq : g.1 = q := by simpa using List.find?_some hg
      have hgb : ¬(g.1 = b) := by rw [hgq]; exact hne
      simp [hgb]
  · rw [if_neg ha]
    rw [List.find?_append]
    cases hg : c.packages.find? (fun f => f.1 = q) with
    | some g => rfl
    | none =>
      have : ¬(((b, e) : List Nat × CacheEntry).1 = q) := fun he => hne he.symm
      simp [List.find?_cons, this]

theorem loadCacheFile_version (fs : FS) (p : List Nat) :
    (loadCacheFile fs p).version ≠ 0 := by
  unfold loadCacheFile
  cases h : readFile fs p with
  | none => simp [emptyCacheFile]
  | some c =>
    cases c with
    | bytes d => simp [emptyCacheFile]
    | cacheDoc cf =>
      by_cases hv : cf.version ≠ 0
      · simpa [hv] using hv
      · simp [hv, emptyCacheFile]

/-! ### Composable effect summaries: frame inside a region, WF preserved -/

/-- A transition from `fs` to `fs'` that only touches the subtree at
`region` and preserves well-formedness. -/
def StepOK (region : List Nat) (fs fs' : FS) : Prop :=
  FrameEq region fs fs' ∧ (fs.WF → fs'.WF)

theorem StepOK_refl (region : List Nat) (fs : FS) : StepOK region fs fs :=
  ⟨FrameEq_refl region fs, id⟩

theorem StepOK_trans {region : List Nat} {fs1 fs2 fs3 : FS}
    (h1 : StepOK region fs1 fs2) (h2 : StepOK region fs2 fs3) :
    StepOK region fs1 fs3 :=
  ⟨FrameEq_trans h1.1 h2.1, fun h => h2.2 (h1.2 h)⟩

theorem StepOK_mono {r R : List Nat} {fs fs' : FS} (h : StepOK r fs fs')
    (hsub : ∀ p, underEq r p = true → underEq R p = true) :
    StepOK R fs fs' := ⟨FrameEq_mono h.1 hsub, h.2⟩

theorem StepOK_ite {region : List Nat} {fs : FS} {c : Prop} [Decidable c]
    {a b : FS} (ha : StepOK region fs a) (hb : StepOK region fs b) :
    StepOK region fs (if c then a else b) := by
  by_cases hc : c
  · rw [if_pos hc]; exact ha
  · rw [if_neg hc]; exact hb

theorem StepOK_rmTree {region : List Nat} (fs : FS) {p : List Nat}
    (hp : underEq region p = true) : StepOK region fs (rmTree fs p) :=
  ⟨FrameEq_rmTree fs hp, fun h => WF_rmTree h p⟩

theorem StepOK_mkdirp {region : List Nat} (fs : FS) {p : List Nat}
    (hp : underEq region p = true) : StepOK region fs (mkdirp fs p) :=
  ⟨FrameEq_mkdirp fs hp, fun h => WF_mkdirp h p⟩

theorem StepOK_cpTree {region : List Nat} (fs : FS) (src : List Nat)
    {dst : List Nat} (hdst : underEq region dst = true) :
    StepOK region fs (cpTree fs src dst) :=
  ⟨FrameEq_cpTree fs hdst, fun h => WF_cpTree h src dst⟩

theorem StepOK_copyGuides {region : List Nat} (a : CopyGuidesArgs) (fs : FS)
    (hout : underEq region a.outDir = true) :
    StepOK region fs (copyGuides a fs).1 := by
  unfold copyGuides
  dsimp only
  simp only [apply_ite Prod.fst]
  exact StepOK_ite (StepOK_refl region fs) (StepOK_ite (StepOK_refl region fs)
    (StepOK_trans (StepOK_mkdirp fs hout) (StepOK_cpTree _ _ hout)))

/-- Modelling assumption on the external generators: each invocation only
touches the subtree below its target `outDir` and keeps the snapshot
well-formed (both generators write only into the directory they are given).
-/
def EnvFrame (env : Env) : Prop :=
  (∀ (a : GenApiArgs) (fs fs' : FS), env.typedocEffect a fs = .ok fs' →
    StepOK a.outDir fs fs') ∧
  (∀ (a : LlmsArgs) (fs fs' : FS), env.llmsEffect a fs = .ok fs' →
    StepOK a.outDir fs fs')

theorem saveCache_rewrite_id {fs : FS} {p : List Nat} {cf : CacheFile}
    (hwf : fs.WF) (hdir : isDir fs (dirname p) = true)
    (h : readFile fs p = some (.cacheDoc cf)) :
    saveCache fs p cf = .ok fs := by
  unfold saveCache writeFile
  rw [if_pos hdir, if_pos (isFile_of_readFile_some h), setFileContent_id hwf h]

theorem except_bind_ok {α β ε : Type} {x : Except ε α} {f : α → Except ε β}
    {v : β} : (x >>= f) = .ok v ↔ ∃ a, x = .ok a ∧ f a = .ok v := by
  cases x <;> simp [bind, Except.bind]

theorem processPackage_post {env : Env} {opts : SyncOptions}
    {dpr tbp : List Nat} {pkg : Pkg} {fs fs' : FS} {cache cache' : CacheFile}
    {acts : List Act} (henv : EnvFrame env) (hdry : opts.dryRun = false)
    (h : processPackage env opts dpr tbp pkg fs cache = .ok (fs', cache', acts)) :
    StepOK (pathJoin dpr pkg.baseName) fs fs' ∧
    cache'.version = cache.version ∧
    (cachedEntry cache' pkg.baseName).guidesHash =
      HashStr.dig (computeGuidesHash fs pkg.pkgDir) ∧
    (cachedEntry cache' pkg.baseName).apiHash =
      HashStr.dig (computeApiHash fs pkg.pkgDir tbp) ∧
    (∀ b, b ≠ pkg.baseName → cachedEntry cache' b = cachedEntry cache b) := by
  have hog : underEq (pathJoin dpr pkg.baseName)
      (pathJoin (pathJoin dpr pkg.baseName) (str "guides")) = true :=
    underEq_pathJoin _ _
  have hoa : underEq (pathJoin dpr pkg.baseName)
      (pathJoin (pathJoin dpr pkg.baseName) (str "api")) = true :=
    underEq_pathJoin _ _
  unfold processPackage at h
  cases hgb : decide (HashStr.dig (computeGuidesHash fs pkg.pkgDir) ≠
      (cachedEntry cache pkg.baseName).guidesHash) <;>
  cases hab : decide (HashStr.dig (computeApiHash fs pkg.pkgDir tbp) ≠
      (cachedEntry cache pkg.baseName).apiHash) <;>
    simp only [hdry, hgb, hab, Bool.not_true, Bool.not_false,
      Bool.true_and, Bool.false_and, Bool.and_true, Bool.and_false,
      Bool.true_or, Bool.false_or, Bool.or_true, Bool.or_false,
      Bool.true_eq_false, Bool.false_eq_true, eq_self_iff_true, if_true,
      if_false, ite_true, ite_false, ite_self, apply_ite Prod.fst,
      apply_ite Prod.snd, pure, Except.pure, Except.ok.injEq] at h
  · -- neither changed: early return
    rw [Prod.mk.injEq, Prod.mk.injEq] at h
    obtain ⟨h1, h2, h3⟩ := h
    subst h1
    subst h2
    refine ⟨StepOK_refl _ _, Eq.refl _, ?_, ?_, fun b _ => Eq.refl _⟩
    · have h4 := of_decide_eq_false hgb
      rw [not_not] at h4
      exact h4.symm
    · have h4 := of_decide_eq_false hab
      rw [not_not] at h4
      exact h4.symm
  · -- api changed only
    obtain ⟨u, hu, h⟩ := except_bind_ok.1 h
    obtain ⟨y, h3, h⟩ := except_bind_ok.1 h
    rw [generateApiDocs_ok_iff] at h3
    obtain ⟨fsT, hx, hy⟩ := h3
    subst hy
    have s12 : StepOK (pathJoin dpr pkg.baseName) fs
        (if opts.clean = true then
          rmTree fs (pathJoin (pathJoin dpr pkg.baseName) (str "api")) else fs) :=
      StepOK_ite (StepOK_rmTree fs hoa) (StepOK_refl _ _)
    have s3 : StepOK (pathJoin dpr pkg.baseName) fs fsT :=
      StepOK_trans s12 (StepOK_mono (henv.1 _ _ _ hx) (fun p hp => underEq_trans hoa hp))
    cases hgl : opts.generateLlms <;>
      simp only [hgl, if_true, if_false, ite_true, ite_false] at h <;>
      obtain ⟨y1, h4, h⟩ := except_bind_ok.1 h
    · rw [Except.ok.injEq] at h4
      simp only [Except.ok.injEq, Prod.mk.injEq] at h
      obtain ⟨h5, h6, h7⟩ := h
      subst h4
      subst h5
      subst h6
      refine ⟨s3, Eq.refl _, by rw [cachedEntry_setPkgEntry_same],
        by rw [cachedEntry_setPkgEntry_same],
        fun b hb => cachedEntry_setPkgEntry_other _ _ _ hb⟩
    · rw [generateLlmsOutputs_ok_iff] at h4
      obtain ⟨w, hw, hy1⟩ := h4
      subst hy1
      simp only [Except.ok.injEq, Prod.mk.injEq] at h
      obtain ⟨h5, h6, h7⟩ := h
      subst h5
      subst h6
      have s4 : StepOK (pathJoin dpr pkg.baseName) fs w :=
        StepOK_trans s3 (StepOK_mono (henv.2 _ _ _ hw) (fun p hp => hp))
      refine ⟨s4, Eq.refl _, by rw [cachedEntry_setPkgEntry_same],
        by rw [cachedEntry_setPkgEntry_same],
        fun b hb => cachedEntry_setPkgEntry_other _ _ _ hb⟩
  · -- guides changed only
    obtain ⟨u, hu, h⟩ := except_bind_ok.1 h
    obtain ⟨y, h3, h⟩ := except_bind_ok.1 h
    rw [Except.ok.injEq] at h3
    have s12 : StepOK (pathJoin dpr pkg.baseName) fs
        ((copyGuides ⟨pkg.pkgDir, str "guides",
          pathJoin (pathJoin dpr pkg.baseName) (str "guides"), false⟩
          (if opts.clean = true then
            rmTree fs (pathJoin (pathJoin dpr pkg.baseName) (str "guides"))
          else fs)).1) :=
      StepOK_trans (StepOK_ite (StepOK_rmTree fs hog) (StepOK_refl _ _))
        (StepOK_copyGuides _ _ hog)
    cases hgl : opts.generateLlms <;>
      simp only [hgl, if_true, if_false, ite_true, ite_false] at h <;>
      obtain ⟨y1, h4, h⟩ := except_bind_ok.1 h
    · rw [Except.ok.injEq] at h4
      simp only [Except.ok.injEq, Prod.mk.injEq] at h
      obtain ⟨h5, h6, h7⟩ := h
      subst h4
      subst h5
      subst h6
      rw [← h3]
      refine ⟨s12, Eq.refl _, by rw [cachedEntry_setPkgEntry_same],
        by rw [cachedEntry_setPkgEntry_same],
        fun b hb => cachedEntry_setPkgEntry_other _ _ _ hb⟩
    · rw [generateLlmsOutputs_ok_iff] at h4
      obtain ⟨w, hw, hy1⟩ := h4
      subst hy1
      simp only [Except.ok.injEq, Prod.mk.injEq] at h
      obtain ⟨h5, h6, h7⟩ := h
      subst h5
      subst h6
      have s4 : StepOK (pathJoin dpr pkg.baseName) fs w := by
        rw [← h3] at hw
        exact StepOK_trans s12 (StepOK_mono (henv.2 _ _ _ hw) (fun p hp => hp))
      refine ⟨s4, Eq.refl _, by rw [cachedEntry_setPkgEntry_same],
        by rw [cachedEntry_setPkgEntry_same],
        fun b hb => cachedEntry_setPkgEntry_other _ _ _ hb⟩
  · -- both changed
    obtain ⟨u, hu, h⟩ := except_bind_ok.1 h
    obtain ⟨y, h3, h⟩ := except_bind_ok.1 h
    rw [generateApiDocs_ok_iff] at h3
    obtain ⟨fsT, hx, hy⟩ := h3
    subst hy
    have s12 : StepOK (pathJoin dpr pkg.baseName) fs
        ((copyGuides ⟨pkg.pkgDir, str "guides",
          pathJoin (pathJoin dpr pkg.baseName) (str "guides"), false⟩
          (if opts.clean = true then
            rmTree (rmTree fs (pathJoin (pathJoin dpr pkg.baseName) (str "guides")))
              (pathJoin (pathJoin dpr pkg.baseName) (str "api"))
          else fs)).1) :=
      StepOK_trans (StepOK_ite (StepOK_trans (StepOK_rmTree fs hog)
        (StepOK_rmTree _ hoa)) (StepOK_refl _ _)) (StepOK_copyGuides _ _ hog)
    have s3 : StepOK (pathJoin dpr pkg.baseName) fs fsT :=
      StepOK_trans s12 (StepOK_mono (henv.1 _ _ _ hx) (fun p hp => underEq_trans hoa hp))
    cases hgl : opts.generateLlms <;>
      simp only [hgl, if_true, if_false, ite_true, ite_false] at h <;>
      obtain ⟨y1, h4, h⟩ := except_bind_ok.1 h
    · rw [Except.ok.injEq] at h4
      simp only [Except.ok.injEq, Prod.mk.injEq] at h
      obtain ⟨h5, h6, h7⟩ := h
      subst h4
      subst h5
      subst h6
      refine ⟨s3, Eq.refl _, by rw [cachedEntry_setPkgEntry_same],
        by rw [cachedEntry_setPkgEntry_same],
        fun b hb => cachedEntry_setPkgEntry_other _ _ _ hb⟩
    · rw [generateLlmsOutputs_ok_iff] at h4
      obtain ⟨w, hw, hy1⟩ := h4
      subst hy1
      simp only [Except.ok.injEq, Prod.mk.injEq] at h
      obtain ⟨h5, h6, h7⟩ := h
      subst h5
      subst h6
      have s4 : StepOK (pathJoin dpr pkg.baseName) fs w :=
        StepOK_trans s3 (StepOK_mono (henv.2 _ _ _ hw) (fun p hp => hp))
      refine ⟨s4, Eq.refl _, by rw [cachedEntry_setPkgEntry_same],
        by rw [cachedEntry_setPkgEntry_same],
        fun b hb => cachedEntry_setPkgEntry_other _ _ _ hb⟩

theorem runLoop_post {env : Env} {opts : SyncOptions} {dpr tbp : List Nat}
    {pkgs : List Pkg} {fs fs' : FS} {cache cache' : CacheFile}
    {acts : List Act} (henv : EnvFrame env) (hdry : opts.dryRun = false)
    (hdisj : ∀ pkg ∈ pkgs, ∀ q, underEq pkg.pkgDir q = true →
      underEq dpr q = false)
    (htb : underEq dpr tbp = false)
    (hdist : (pkgs.map Pkg.baseName).Nodup)
    (h : runLoop env opts dpr tbp pkgs fs cache = .ok (fs', cache', acts)) :
    StepOK dpr fs fs' ∧ cache'.version = cache.version ∧
    (∀ pkg ∈ pkgs,
      (cachedEntry cache' pkg.baseName).guidesHash =
        HashStr.dig (computeGuidesHash fs pkg.pkgDir) ∧
      (cachedEntry cache' pkg.baseName).apiHash =
        HashStr.dig (computeApiHash fs pkg.pkgDir tbp)) ∧
    (∀ b, (∀ pkg ∈ pkgs, b ≠ pkg.baseName) →
      cachedEntry cache' b = cachedEntry cache b) := by
  induction pkgs generalizing fs cache fs' cache' acts with
  | nil =>
    unfold runLoop at h
    rw [Except.ok.injEq, Prod.mk.injEq, Prod.mk.injEq] at h
    obtain ⟨he1, he2, he3⟩ := h
    subst he1
    subst he2
    exact ⟨StepOK_refl _ _, Eq.refl _, fun pkg hm => absurd hm (by simp),
      fun b _ => Eq.refl _⟩
  | cons pkg rest ih =>
    unfold runLoop at h
    obtain ⟨⟨fs1, c1, a1⟩, h1, h⟩ := except_bind_ok.1 h
    obtain ⟨⟨fs2, c2, a2⟩, h2, h⟩ := except_bind_ok.1 h
    simp only [pure, Except.pure, Except.ok.injEq, Prod.mk.injEq] at h
    obtain ⟨he1, he2, he3⟩ := h
    subst he1
    subst he2
    have hpost := processPackage_post henv hdry h1
    rw [List.map_cons, List.nodup_cons] at hdist
    have hih := ih (fun p hp q hq => hdisj p (List.mem_cons_of_mem pkg hp) q hq)
      hdist.2 h2
    have hstep1 : StepOK dpr fs fs1 :=
      StepOK_mono hpost.1 (fun p hp => underEq_trans (underEq_pathJoin _ _) hp)
    refine ⟨StepOK_trans hstep1 hih.1, hih.2.1.trans hpost.2.1, ?_, ?_⟩
    · intro p hp
      rcases List.mem_cons.1 hp with he | hm
      · subst he
        have huntouched : cachedEntry c2 p.baseName = cachedEntry c1 p.baseName := by
          apply hih.2.2.2
          intro p' hp' he'
          exact hdist.1 (he' ▸ (List.mem_map.2 ⟨p', hp', rfl⟩))
        rw [huntouched]
        exact ⟨hpost.2.2.1, hpost.2.2.2.1⟩
      · have hg := hih.2.2.1 p hm
        have hframe : FrameEq dpr fs fs1 := hstep1.1
        have hdisp := hdisj p (List.mem_cons_of_mem pkg hm)
        rw [computeGuidesHash_frame hframe hdisp] at hg
        rw [computeApiHash_frame hframe hdisp htb] at hg
        exact hg
    · intro b hb
      have h3 := hih.2.2.2 b (fun p hp => hb p (List.mem_cons_of_mem pkg hp))
      rw [h3]
      exact hpost.2.2.2.2 b (hb pkg (List.mem_cons_self pkg rest))

theorem processPackage_skip {env : Env} {opts : SyncOptions}
    {dpr tbp : List Nat} {pkg : Pkg} {fs : FS} {cache : CacheFile}
    (hg : (cachedEntry cache pkg.baseName).guidesHash =
      HashStr.dig (computeGuidesHash fs pkg.pkgDir))
    (ha : (cachedEntry cache pkg.baseName).apiHash =
      HashStr.dig (computeApiHash fs pkg.pkgDir tbp)) :
    processPackage env opts dpr tbp pkg fs cache =
      .ok (fs, cache, [Act.log (.unchanged pkg.baseName)]) := by
  unfold processPackage
  have hgb : decide (HashStr.dig (computeGuidesHash fs pkg.pkgDir) ≠
      (cachedEntry cache pkg.baseName).guidesHash) = false := by simp [hg]
  have hab : decide (HashStr.dig (computeApiHash fs pkg.pkgDir tbp) ≠
      (cachedEntry cache pkg.baseName).apiHash) = false := by simp [ha]
  simp only [hgb, hab, Bool.not_false, Bool.and_self, if_true, ite_true]
  rfl

theorem runLoop_skip {env : Env} {opts : SyncOptions} {dpr tbp : List Nat}
    {pkgs : List Pkg} {fs : FS} {cache : CacheFile}
    (h : ∀ pkg ∈ pkgs,
      (cachedEntry cache pkg.baseName).guidesHash =
        HashStr.dig (computeGuidesHash fs pkg.pkgDir) ∧
      (cachedEntry cache pkg.baseName).apiHash =
        HashStr.dig (computeApiHash fs pkg.pkgDir tbp)) :
    runLoop env opts dpr tbp pkgs fs cache =
      .ok (fs, cache, pkgs.map (fun p => Act.log (.unchanged p.baseName))) := by
  induction pkgs with
  | nil => rfl
  | cons pkg rest ih =>
    unfold runLoop
    rw [processPackage_skip (h pkg (List.mem_cons_self pkg rest)).1
      (h pkg (List.mem_cons_self pkg rest)).2]
    simp only [bind, Except.bind]
    rw [ih (fun p hp => h p (List.mem_cons_of_mem pkg hp))]
    rfl

/-! ### Discovery is stable under changes inside the docs output tree -/

theorem underEq_length {a b : List Nat} (h : underEq a b = true) :
    a.length ≤ b.length := by
  rcases underEq_cases h with h1 | ⟨t, h1⟩ <;> subst h1 <;> simp

theorem isDirectChild_outside_docs_region {parent n2 q : List Nat}
    (hq : underEq (pathJoin (pathJoin parent (str "docs")) n2) q = true) :
    isDirectChild parent q = false := by
  cases hc : isDirectChild parent q with
  | false => rfl
  | true =>
    exfalso
    obtain ⟨m, hqm, hms, hmne⟩ := isDirectChild_decomp hc
    have hdq : underEq (pathJoin parent (str "docs")) q = true :=
      underEq_trans (underDir_underEq (underDir_pathJoin _ _)) hq
    rcases underEq_cases hdq with h1 | ⟨t, h1⟩
    · have hlen := underEq_length hq
      rw [h1] at hlen
      simp [pathJoin] at hlen
    · rw [hqm] at h1
      unfold pathJoin at h1
      rw [List.append_assoc] at h1
      have h2 := List.append_cancel_left h1
      simp only [List.cons_append] at h2
      injection h2 with h3 h4
      apply hms
      rw [h4]
      exact List.mem_append.2 (Or.inr (List.mem_cons_self _ _))

theorem child_disjoint_docs_region {parent d n2 q : List Nat}
    (hd : isDirectChild parent d = true)
    (hnd : decide (basename d = str "docs") = false)
    (hq : underEq d q = true) :
    underEq (pathJoin (pathJoin parent (str "docs")) n2) q = false := by
  cases hc : underEq (pathJoin (pathJoin parent (str "docs")) n2) q with
  | false => rfl
  | true =>
    exfalso
    obtain ⟨m, hdm, hms, hmne⟩ := isDirectChild_decomp hd
    have hmd : m ≠ str "docs" := by
      rw [decide_eq_false_iff_not] at hnd
      intro he
      apply hnd
      rw [hdm, basename_pathJoin hms, he]
    have hq1 : underEq (pathJoin parent m) q = true := hdm ▸ hq
    have hfalse := underEq_pathJoin_disjoint hms (by decide) hmd hq1
    have hdq : underEq (pathJoin parent (str "docs")) q = true :=
      underEq_trans (underDir_underEq (underDir_pathJoin _ _)) hc
    rw [hfalse] at hdq
    exact Bool.false_ne_true hdq

theorem filterMap_congr {α β : Type} {l : List α} {f g : α → Option β}
    (h : ∀ x ∈ l, f x = g x) : l.filterMap f = l.filterMap g := by
  induction l with
  | nil => rfl
  | cons x t ih =>
    rw [List.filterMap_cons, List.filterMap_cons, h x (List.mem_cons_self x t),
      ih (fun y hy => h y (List.mem_cons_of_mem x hy))]

theorem getPackageMeta_frame {env : Env} {r : List Nat} {fs fs' : FS}
    (h : FrameEq r fs fs') {d : List Nat}
    (hout : underEq r (pathJoin d (str "package.json")) = false) :
    getPackageMeta env fs' d = getPackageMeta env fs d := by
  unfold getPackageMeta
  dsimp only
  rw [fileExists_frame h hout, readFileD_frame h hout]

theorem discoverPkgs_frame {env : Env} {fs fs' : FS} {parent r : List Nat}
    {incl excl : List (List Nat)} (h : FrameEq r fs fs')
    (hA : ∀ q, isDirectChild parent q = true → underEq r q = false)
    (hB : ∀ d, isDirectChild parent d = true →
      decide (basename d = str "docs") = false →
      ∀ q, underEq d q = true → underEq r q = false) :
    discoverPkgs env fs' parent incl excl =
      discoverPkgs env fs parent incl excl := by
  unfold discoverPkgs
  dsimp only
  have hAf : fs'.dirs.filter (fun d => isDirectChild parent d) =
      fs.dirs.filter (fun d => isDirectChild parent d) :=
    filter_eq_of_imp h.2 (fun q hq => by rw [hA q hq]; rfl)
  rw [hAf]
  have hmem : ∀ d ∈ (fs.dirs.filter (fun d => isDirectChild parent d)).filter
      (fun dir => !decide (basename dir = str "docs")),
      ∀ q, underEq d q = true → underEq r q = false := by
    intro d hd
    rw [List.mem_filter, List.mem_filter] at hd
    exact hB d hd.1.2 (by simpa using hd.2)
  have hCf : ((fs.dirs.filter (fun d => isDirectChild parent d)).filter
      (fun dir => !decide (basename dir = str "docs"))).filter
      (fun dir => fileExists fs' (pathJoin dir (str "package.json"))) =
      ((fs.dirs.filter (fun d => isDirectChild parent d)).filter
      (fun dir => !decide (basename dir = str "docs"))).filter
      (fun dir => fileExists fs (pathJoin dir (str "package.json"))) := by
    apply List.filter_congr
    intro d hd
    exact fileExists_frame h (hmem d hd _ (underEq_pathJoin _ _))
  rw [hCf]
  apply filterMap_congr
  intro d hd
  rw [List.mem_filter] at hd
  rw [getPackageMeta_frame h (hmem d hd.1 _ (underEq_pathJoin _ _))]

theorem isDir_mkdirp_self (fs : FS) (p : List Nat) :
    isDir (mkdirp fs p) p = true := by
  unfold mkdirp
  cases hd : isDir fs p with
  | true => simpa using hd
  | false =>
    simp only [Bool.false_eq_true, if_false, ite_false]
    unfold isDir
    dsimp only
    rw [List.any_append]
    simp

theorem writeFile_dirs {fs fs' : FS} {p : List Nat} {c : Content}
    (h : writeFile fs p c = .ok fs') : fs'.dirs = fs.dirs := by
  unfold writeFile at h
  split at h
  · rw [Except.ok.injEq] at h
    by_cases hf : isFile fs p = true
    · rw [if_pos hf] at h
      rw [← h]
      rfl
    · rw [if_neg hf] at h
      rw [← h]
  · exact Except.noConfusion h

theorem readFile_writeFile_self {fs fs' : FS} {p : List Nat} {c : Content}
    (h : writeFile fs p c = .ok fs') : readFile fs' p = some c := by
  unfold writeFile at h
  split at h
  · rw [Except.ok.injEq] at h
    by_cases hf : isFile fs p = true
    · rw [if_pos hf] at h
      rw [← h]
      exact readFile_setFileContent_same c hf
    · rw [if_neg hf] at h
      rw [← h]
      exact readFile_append_one c (by simpa using hf)
  · exact Except.noConfusion h

theorem discoverPkgs_mem {env : Env} {fs : FS} {parent : List Nat}
    {incl excl : List (List Nat)} {pkg : Pkg}
    (h : pkg ∈ discoverPkgs env fs parent incl excl) :
    isDirectChild parent pkg.pkgDir = true ∧
    decide (basename pkg.pkgDir = str "docs") = false := by
  unfold discoverPkgs at h
  dsimp only at h
  rw [List.mem_filterMap] at h
  obtain ⟨d, hd, hopt⟩ := h
  rw [List.mem_filter, List.mem_filter, List.mem_filter] at hd
  have hdir : pkg.pkgDir = d := by
    cases hg : getPackageMeta env fs d with
    | none =>
      rw [hg] at hopt
      exact Option.noConfusion hopt
    | some meta =>
      rw [hg] at hopt
      dsimp only at hopt
      split at hopt
      · rw [Option.some.injEq] at hopt
        rw [← hopt]
      · exact Option.noConfusion hopt
  rw [hdir]
  exact ⟨hd.1.1.2, by simpa using hd.1.2⟩

theorem writeFile_ok_isDir {fs fs' : FS} {p : List Nat} {c : Content}
    (h : writeFile fs p c = .ok fs') : isDir fs (dirname p) = true := by
  unfold writeFile at h
  split at h
  · next hc => exact hc
  · exact Except.noConfusion h

theorem runSync_post {env : Env} {opts : SyncOptions} {parent : List Nat}
    {fs fs1 : FS} {tr1 : List Act}
    (henv : EnvFrame env) (hdry : opts.dryRun = false) (hwf : fs.WF)
    (hdist : ((discoverPkgs env fs parent opts.incl opts.excl).map
      Pkg.baseName).Nodup)
    (h : runSync env opts (pathJoin parent (str "docs")) fs = .ok (fs1, tr1)) :
    fs1.WF ∧
    FrameEq (pathJoin (pathJoin parent (str "docs")) (str "packages")) fs fs1 ∧
    fileExists fs1 (pathJoin (pathJoin parent (str "docs")) (str "packages")) = true ∧
    ((discoverPkgs env fs parent opts.incl opts.excl).isEmpty = false →
      isDir fs1 (pathJoin (pathJoin parent (str "docs")) (str "packages")) = true ∧
      ∃ cacheF : CacheFile,
        readFile fs1 (pathJoin (pathJoin (pathJoin parent (str "docs"))
          (str "packages")) (str "cache.json")) = some (.cacheDoc cacheF) ∧
        cacheF.version ≠ 0 ∧
        ∀ pkg ∈ discoverPkgs env fs parent opts.incl opts.excl,
          (cachedEntry cacheF pkg.baseName).guidesHash =
            HashStr.dig (computeGuidesHash fs1 pkg.pkgDir) ∧
          (cachedEntry cacheF pkg.baseName).apiHash =
            HashStr.dig (computeApiHash fs1 pkg.pkgDir
              (pathJoin (pathJoin parent (str "docs"))
                (str "typedoc.base.json")))) := by
  have hdd : dirname (pathJoin parent (str "docs")) = parent :=
    dirname_pathJoin (by decide)
  have hA : ∀ q, isDirectChild parent q = true →
      underEq (pathJoin (pathJoin parent (str "docs")) (str "packages")) q
        = false := by
    intro q hq
    cases he : underEq (pathJoin (pathJoin parent (str "docs"))
        (str "packages")) q with
    | false => rfl
    | true =>
      rw [isDirectChild_outside_docs_region he] at hq
      exact absurd hq Bool.false_ne_true
  have hB : ∀ d, isDirectChild parent d = true →
      decide (basename d = str "docs") = false →
      ∀ q, underEq d q = true →
      underEq (pathJoin (pathJoin parent (str "docs")) (str "packages")) q
        = false :=
    fun d hd hnd q hq => child_disjoint_docs_region hd hnd hq
  have htbp : underEq (pathJoin (pathJoin parent (str "docs")) (str "packages"))
      (pathJoin (pathJoin parent (str "docs")) (str "typedoc.base.json"))
        = false :=
    underEq_pathJoin_disjoint (by decide) (by decide) (by decide)
      (underEq_refl _)
  unfold runSync at h
  rw [hdd] at h
  by_cases hpar : basename parent ≠ str "orkestrel"
  · rw [if_pos hpar] at h
    simp only [throw, throwThe, MonadExceptOf.throw, bind, Except.bind] at h
    exact absurd h (by simp)
  · rw [if_neg hpar] at h
    rw [hdry] at h
    rcases Bool.eq_false_or_eq_true (fileExists fs
        (pathJoin (pathJoin parent (str "docs")) (str "packages"))) with hfe | hfe <;>
      simp only [hfe, Bool.not_true, Bool.not_false, if_true, if_false,
        Bool.false_eq_true, eq_self_iff_true, ite_true, ite_false] at h
    · have hwf0 : fs.WF := hwf
      have hfr0 : FrameEq (pathJoin (pathJoin parent (str "docs"))
          (str "packages")) fs fs := FrameEq_refl _ _
      have hfe0 : fileExists fs (pathJoin (pathJoin parent (str "docs"))
          (str "packages")) = true := hfe
      have hdisc0 : discoverPkgs env fs parent opts.incl opts.excl =
          discoverPkgs env fs parent opts.incl opts.excl := Eq.refl _
      rw [hdisc0] at h
      by_cases hdisc : (discoverPkgs env fs parent opts.incl
          opts.excl).isEmpty = true
      · simp only [hdisc, ite_true, if_true, bind, Except.bind, pure,
          Except.pure, Except.ok.injEq, Prod.mk.injEq] at h
        obtain ⟨h1, h2⟩ := h
        subst h1
        refine ⟨hwf0, hfr0, hfe0, ?_⟩
        intro hne
        rw [hdisc] at hne
        exact absurd hne (by simp)
      · simp only [hdisc, ite_false, Bool.false_eq_true, if_false, bind,
          Except.bind] at h
        cases hl : runLoop env opts
            (pathJoin (pathJoin parent (str "docs")) (str "packages"))
            (pathJoin (pathJoin parent (str "docs")) (str "typedoc.base.json"))
            (discoverPkgs env fs parent opts.incl opts.excl) fs
            (loadCacheFile fs
              (pathJoin (pathJoin (pathJoin parent (str "docs"))
                (str "packages")) (str "cache.json"))) with
        | error e =>
          rw [hl] at h
          exact absurd h
            (by simp [pure, Except.pure, throw, throwThe, MonadExceptOf.throw])
        | ok t =>
          obtain ⟨fsL, cL, acts⟩ := t
          rw [hl] at h
          simp only [pure, Except.pure] at h
          have hdisjD : ∀ pkg ∈ discoverPkgs env fs parent opts.incl opts.excl,
              ∀ q, underEq pkg.pkgDir q = true →
              underEq (pathJoin (pathJoin parent (str "docs"))
                (str "packages")) q = false :=
            fun pkg hp q hq =>
              hB pkg.pkgDir (discoverPkgs_mem hp).1 (discoverPkgs_mem hp).2 q hq
          have hloop := runLoop_post henv hdry hdisjD htbp hdist hl
          cases hs : saveCache fsL
              (pathJoin (pathJoin (pathJoin parent (str "docs"))
                (str "packages")) (str "cache.json")) cL with
          | error e =>
            rw [hs] at h
            simp only [throw, throwThe, MonadExceptOf.throw] at h
            exact absurd h (by simp)
          | ok fsS =>
            rw [hs] at h
            simp only [pure, Except.pure, Except.ok.injEq, Prod.mk.injEq] at h
            obtain ⟨h1, h2⟩ := h
            subst h1
            unfold saveCache at hs
            have hwfL : fsL.WF := hloop.1.2 hwf0
            have hdirL : isDir fsL (pathJoin (pathJoin parent (str "docs"))
                (str "packages")) = true := by
              have htmp := writeFile_ok_isDir hs
              rw [dirname_pathJoin (by decide)] at htmp
              exact htmp
            have hwfS : fsS.WF := WF_writeFile hwfL hs
            have hfrS : FrameEq (pathJoin (pathJoin parent (str "docs"))
                (str "packages")) fsL fsS :=
              FrameEq_writeFile hs (underEq_pathJoin _ _)
            have hread : readFile fsS
                (pathJoin (pathJoin (pathJoin parent (str "docs"))
                  (str "packages")) (str "cache.json")) =
                some (.cacheDoc cL) := readFile_writeFile_self hs
            have hdirS : isDir fsS (pathJoin (pathJoin parent (str "docs"))
                (str "packages")) = true := by
              unfold isDir at hdirL ⊢
              rw [writeFile_dirs hs]
              exact hdirL
            have hframe01 : FrameEq (pathJoin (pathJoin parent (str "docs"))
                (str "packages")) fs fsS := FrameEq_trans hloop.1.1 hfrS
            refine ⟨hwfS, FrameEq_trans hfr0 hframe01,
              by unfold fileExists; rw [hdirS]; simp, ?_⟩
            intro hne
            refine ⟨hdirS, cL, hread, ?_, ?_⟩
            · rw [hloop.2.1]
              exact loadCacheFile_version _ _
            · intro pkg hpkg
              have hent := hloop.2.2.1 pkg hpkg
              have hdisjp := hdisjD pkg hpkg
              rw [computeGuidesHash_frame hframe01 hdisjp,
                computeApiHash_frame hframe01 hdisjp htbp]
              exact hent
    · have hfr0 : FrameEq (pathJoin (pathJoin parent (str "docs"))
          (str "packages")) fs
          (mkdirp fs (pathJoin (pathJoin parent (str "docs"))
            (str "packages"))) := FrameEq_mkdirp fs (underEq_refl _)
      have hwf0 : (mkdirp fs (pathJoin (pathJoin parent (str "docs"))
          (str "packages"))).WF := WF_mkdirp hwf _
      have hfe0 : fileExists (mkdirp fs (pathJoin (pathJoin parent
          (str "docs")) (str "packages")))
          (pathJoin (pathJoin parent (str "docs")) (str "packages")) = true := by
        unfold fileExists
        rw [isDir_mkdirp_self]
        simp
      have hdisc0 : discoverPkgs env (mkdirp fs (pathJoin (pathJoin parent
          (str "docs")) (str "packages"))) parent opts.incl opts.excl =
          discoverPkgs env fs parent opts.incl opts.excl :=
        discoverPkgs_frame hfr0 hA hB
      rw [hdisc0] at h
      by_cases hdisc : (discoverPkgs env fs parent opts.incl
          opts.excl).isEmpty = true
      · simp only [hdisc, ite_true, if_true, bind, Except.bind, pure,
          Except.pure, Except.ok.injEq, Prod.mk.injEq] at h
        obtain ⟨h1, h2⟩ := h
        subst h1
        refine ⟨hwf0, hfr0, hfe0, ?_⟩
        intro hne
        rw [hdisc] at hne
        exact absurd hne (by simp)
      · simp only [hdisc, ite_false, Bool.false_eq_true, if_false, bind,
          Except.bind] at h
        cases hl : runLoop env opts
            (pathJoin (pathJoin parent (str "docs")) (str "packages"))
            (pathJoin (pathJoin parent (str "docs")) (str "typedoc.base.json"))
            (discoverPkgs env fs parent opts.incl opts.excl) (mkdirp fs (pathJoin (pathJoin parent (str "docs"))
              (str "packages")))
            (loadCacheFile (mkdirp fs (pathJoin (pathJoin parent (str "docs"))
              (str "packages")))
              (pathJoin (pathJoin (pathJoin parent (str "docs"))
                (str "packages")) (str "cache.json"))) with
        | error e =>
          rw [hl] at h
          exact absurd h
            (by simp [pure, Except.pure, throw, throwThe, MonadExceptOf.throw])
        | ok t =>
          obtain ⟨fsL, cL, acts⟩ := t
          rw [hl] at h
          simp only [pure, Except.pure] at h
          have hdisjD : ∀ pkg ∈ discoverPkgs env fs parent opts.incl opts.excl,
              ∀ q, underEq pkg.pkgDir q = true →
              underEq (pathJoin (pathJoin parent (str "docs"))
                (str "packages")) q = false :=
            fun pkg hp q hq =>
              hB pkg.pkgDir (discoverPkgs_mem hp).1 (discoverPkgs_mem hp).2 q hq
          have hloop := runLoop_post henv hdry hdisjD htbp hdist hl
          cases hs : saveCache fsL
              (pathJoin (pathJoin (pathJoin parent (str "docs"))
                (str "packages")) (str "cache.json")) cL with
          | error e =>
            rw [hs] at h
            simp only [throw, throwThe, MonadExceptOf.throw] at h
            exact absurd h (by simp)
          | ok fsS =>
            rw [hs] at h
            simp only [pure, Except.pure, Except.ok.injEq, Prod.mk.injEq] at h
            obtain ⟨h1, h2⟩ := h
            subst h1
            unfold saveCache at hs
            have hwfL : fsL.WF := hloop.1.2 hwf0
            have hdirL : isDir fsL (pathJoin (pathJoin parent (str "docs"))
                (str "packages")) = true := by
              have htmp := writeFile_ok_isDir hs
              rw [dirname_pathJoin (by decide)] at htmp
              exact htmp
            have hwfS : fsS.WF := WF_writeFile hwfL hs
            have hfrS : FrameEq (pathJoin (pathJoin parent (str "docs"))
                (str "packages")) fsL fsS :=
              FrameEq_writeFile hs (underEq_pathJoin _ _)
            have hread : readFile fsS
                (pathJoin (pathJoin (pathJoin parent (str "docs"))
                  (str "packages")) (str "cache.json")) =
                some (.cacheDoc cL) := readFile_writeFile_self hs
            have hdirS : isDir fsS (pathJoin (pathJoin parent (str "docs"))
                (str "packages")) = true := by
              unfold isDir at hdirL ⊢
              rw [writeFile_dirs hs]
              exact hdirL
            have hframe01 : FrameEq (pathJoin (pathJoin parent (str "docs"))
                (str "packages")) (mkdirp fs (pathJoin (pathJoin parent (str "docs"))
              (str "packages"))) fsS := FrameEq_trans hloop.1.1 hfrS
            refine ⟨hwfS, FrameEq_trans hfr0 hframe01,
              by unfold fileExists; rw [hdirS]; simp, ?_⟩
            intro hne
            refine ⟨hdirS, cL, hread, ?_, ?_⟩
            · rw [hloop.2.1]
              exact loadCacheFile_version _ _
            · intro pkg hpkg
              have hent := hloop.2.2.1 pkg hpkg
              have hdisjp := hdisjD pkg hpkg
              rw [computeGuidesHash_frame hframe01 hdisjp,
                computeApiHash_frame hframe01 hdisjp htbp]
              exact hent


/-- C2 (amended): if a non-dry-run `runSync` from the `orkestrel/docs`
working directory completes successfully, the discovered packages resolve to
pairwise-distinct base names, and the external generators only write below
their target directory and preserve snapshot well-formedness, then an
immediately following `runSync` over the resulting filesystem — with no
intervening file changes — skips every discovered package: it rediscovers
the same packages, finds both freshly computed hashes equal to the cached
ones, logs each package as unchanged, invokes no guides-copy, API-generation
or summary-generation adapter, leaves every cache entry and the whole
filesystem untouched, and merely rewrites the cache file with its existing
content (or, with nothing discovered, just reports that).  Without the
distinct-base-name hypothesis the property fails, see the counterexample. -/
theorem runSync_idempotent_skip {env : Env} {opts : SyncOptions}
    {cwd : List Nat} {fs fs1 : FS} {tr1 : List Act}
    (henv : EnvFrame env) (hdry : opts.dryRun = false) (hwf : fs.WF)
    (hcwd : cwd = pathJoin (dirname cwd) (str "docs"))
    (hdist : ((discoverPkgs env fs (dirname cwd) opts.incl opts.excl).map
      Pkg.baseName).Nodup)
    (h1 : runSync env opts cwd fs = .ok (fs1, tr1)) :
    runSync env opts cwd fs1 = .ok (fs1,
      if (discoverPkgs env fs (dirname cwd) opts.incl opts.excl).isEmpty then
        [Act.log .noPackages]
      else
        (discoverPkgs env fs (dirname cwd) opts.incl opts.excl).map
          (fun p => Act.log (.unchanged p.baseName)) ++
        [Act.writeCacheFile (pathJoin (pathJoin cwd (str "packages"))
          (str "cache.json"))]) := by
  have key : ∀ parent : List Nat, cwd = pathJoin parent (str "docs") →
      dirname cwd = parent →
      runSync env opts cwd fs1 = .ok (fs1,
        if (discoverPkgs env fs (dirname cwd) opts.incl opts.excl).isEmpty then
          [Act.log .noPackages]
        else
          (discoverPkgs env fs (dirname cwd) opts.incl opts.excl).map
            (fun p => Act.log (.unchanged p.baseName)) ++
          [Act.writeCacheFile (pathJoin (pathJoin cwd (str "packages"))
            (str "cache.json"))]) := by
    intro parent hc hd
    subst hc
    rw [hd] at hdist
    rw [hd]
    have hpost := runSync_post henv hdry hwf hdist h1
    have hA : ∀ q, isDirectChild parent q = true →
        underEq (pathJoin (pathJoin parent (str "docs")) (str "packages")) q
          = false := by
      intro q hq
      cases he : underEq (pathJoin (pathJoin parent (str "docs"))
          (str "packages")) q with
      | false => rfl
      | true =>
        rw [isDirectChild_outside_docs_region he] at hq
        exact absurd hq Bool.false_ne_true
    have hB : ∀ d, isDirectChild parent d = true →
        decide (basename d = str "docs") = false →
        ∀ q, underEq d q = true →
        underEq (pathJoin (pathJoin parent (str "docs")) (str "packages")) q
          = false :=
      fun d hdc hnd q hq => child_disjoint_docs_region hdc hnd hq
    have hdisc1 : discoverPkgs env fs1 parent opts.incl opts.excl =
        discoverPkgs env fs parent opts.incl opts.excl :=
      discoverPkgs_frame hpost.2.1 hA hB
    by_cases hpar : basename parent ≠ str "orkestrel"
    · exfalso
      unfold runSync at h1
      rw [hd, if_pos hpar] at h1
      simp only [throw, throwThe, MonadExceptOf.throw, bind, Except.bind] at h1
      exact absurd h1 (by simp)
    · unfold runSync
      rw [hd, if_neg hpar]
      simp only [hpost.2.2.1, Bool.not_true, Bool.false_eq_true, if_false,
        ite_false, hdisc1, hdry]
      by_cases hdisc : (discoverPkgs env fs parent opts.incl
          opts.excl).isEmpty = true
      · simp only [hdisc, ite_true, if_true, bind, Except.bind, pure,
          Except.pure]
        rfl
      · obtain ⟨hdirS, cacheF, hread, hver, hents⟩ :=
          hpost.2.2.2 (by simpa using hdisc)
        have hload : loadCacheFile fs1
            (pathJoin (pathJoin (pathJoin parent (str "docs"))
              (str "packages")) (str "cache.json")) = cacheF := by
          unfold loadCacheFile
          rw [hread]
          simp [hver]
        simp only [hdisc, ite_false, Bool.false_eq_true, if_false, bind,
          Except.bind, hload]
        rw [runLoop_skip (fun pkg hp => hents pkg hp)]
        have hsave : saveCache fs1
            (pathJoin (pathJoin (pathJoin parent (str "docs"))
              (str "packages")) (str "cache.json")) cacheF = .ok fs1 :=
          saveCache_rewrite_id hpost.1
            (by rw [dirname_pathJoin (by decide)]; exact hdirS) hread
        simp only [hsave, pure, Except.pure, List.nil_append]
  exact key (dirname cwd) hcwd (Eq.refl _)

/-- Collision world for the C2 counterexample: two sibling packages whose
manifests resolve to the same base name — `@x/core` and `core` both have
base name `core`. -/
def envX : Env where
  parseMeta := fun c => match c with
    | .bytes s =>
      if s = str "JA" then some ⟨some (str "@x/core")⟩
      else if s = str "JB" then some ⟨some (str "core")⟩
      else none
    | _ => none
  typedocEffect := fun _ fs => .ok fs
  llmsEffect := fun _ fs => .ok fs
  nowStr := str "T0"

def fsX : FS where
  files := [
    (str "/w/orkestrel/a/package.json", .bytes (str "JA")),
    (str "/w/orkestrel/a/src/index.ts", .bytes (str "expA")),
    (str "/w/orkestrel/b/package.json", .bytes (str "JB"))]
  dirs := [str "/w/orkestrel", str "/w/orkestrel/docs", str "/w/orkestrel/a",
    str "/w/orkestrel/a/src", str "/w/orkestrel/b"]

def optsX : SyncOptions := ⟨[], [], false, false, false, false⟩

def cwdX : List Nat := str "/w/orkestrel/docs"

/-- C2, counterexample to the claim as stated: in the collision world two
sibling packages resolve to base name `core`, so they share one cache entry
and one output directory; the first non-dry run succeeds, no file changes
intervene (the second run starts from exactly the snapshot the first run
produced), yet the second run is not an all-skip run: it invokes the API
generator again. -/
theorem runSync_second_run_reinvokes :
    ((runSync envX optsX cwdX fsX).toOption.isSome = true) ∧
    ((match runSync envX optsX cwdX fsX with
      | .ok (fs1, _) =>
        (match runSync envX optsX cwdX fs1 with
         | .ok (_, tr2) => tr2.any (fun a => match a with
           | .typedocRun _ => true
           | _ => false)
         | .error _ => false)
      | .error _ => false) = true) := by
  constructor <;> decide

/-- One-package world for the C2 witness: `demo` has neither a `src` tree
nor guides, so both hashes are the respective absence markers. -/
def envW2 : Env where
  parseMeta := fun c => match c with
    | .bytes s => if s = str "J" then some ⟨some (str "demo")⟩ else none
    | _ => none
  typedocEffect := fun _ fs => .ok fs
  llmsEffect := fun _ fs => .ok fs
  nowStr := str "T0"

def fsW2 : FS where
  files := [(str "/w/orkestrel/demo/package.json", .bytes (str "J"))]
  dirs := [str "/w", str "/w/orkestrel", str "/w/orkestrel/docs",
    str "/w/orkestrel/demo"]

def optsW2 : SyncOptions := ⟨[], [], false, false, false, false⟩

/-- The outcome of the first run on the witness world. -/
def wres : Except RunErr (FS × List Act) := runSync envW2 optsW2 cwdX fsW2

def wfs1 : FS := match wres with | .ok (f, _) => f | .error _ => fsW2

def wtr1 : List Act := match wres with | .ok (_, t) => t | .error _ => []

theorem runSync_idempotent_skip_witness :
    runSync envW2 optsW2 cwdX wfs1 = .ok (wfs1,
      if (discoverPkgs envW2 fsW2 (dirname cwdX) optsW2.incl
          optsW2.excl).isEmpty then [Act.log .noPackages]
      else
        (discoverPkgs envW2 fsW2 (dirname cwdX) optsW2.incl optsW2.excl).map
          (fun p => Act.log (.unchanged p.baseName)) ++
        [Act.writeCacheFile (pathJoin (pathJoin cwdX (str "packages"))
          (str "cache.json"))]) := by
  have henv : EnvFrame envW2 := by
    constructor
    · intro a fs fs' h
      have h2 : fs = fs' := by
        have h3 : (Except.ok fs : Except Unit FS) = Except.ok fs' := h
        injection h3
      rw [← h2]
      exact StepOK_refl _ _
    · intro a fs fs' h
      have h2 : fs = fs' := by
        have h3 : (Except.ok fs : Except Unit FS) = Except.ok fs' := h
        injection h3
      rw [← h2]
      exact StepOK_refl _ _
  exact runSync_idempotent_skip henv rfl (by unfold FS.WF; decide) (by decide)
    (by decide) (rfl : runSync envW2 optsW2 cwdX fsW2 = .ok (wfs1, wtr1))

end Docs
